import Mathlib

/-!
# claude-opencode-proxy: request handler, credential lookup and response relay

A shallow embedding of `proxy/proxy.go` (`Run`, `handleProxy`) and
`config/config.go` (`Config`, `GetToken`), followed by theorems about them.

Standard-library calls are modelled at the level the handler observes them:
* `encoding/json`: a document is an abstract syntax tree (`JSON`); decoding into
  `interface{}` goes through `float64` (`parseFloat`), encoding prints the shortest
  decimal that reads back as the same `float64` (`formatFloat`) and sorts map keys;
* `net/http`: headers are keyed by their canonical MIME form; the response writer and
  the upstream client are recorded as a trace of `Event`s.
-/

namespace Proxy

/-! ## Numbers: `strconv.ParseFloat` and shortest formatting -/

/-- A JSON number literal, by value: `mant * 10 ^ exp`. -/
structure Decimal where
  mant : Int
  exp : Int
deriving DecidableEq, Repr

/-- A finite `float64`, by value: `(-1)^neg * mant * 2 ^ exp`, with `mant < 2 ^ 53` and
`-1074 ≤ exp ≤ 971`; normal numbers have `2 ^ 52 ≤ mant`, subnormals have `exp = -1074`. -/
structure F64 where
  neg : Bool
  mant : Nat
  exp : Int
deriving DecidableEq, Repr

/-- Binary logarithm rounded down, by repeated halving (`fuel` bounds the halvings). -/
def ilog2Aux : Nat → Nat → Nat
  | 0, _ => 0
  | fuel + 1, n => if n < 2 then 0 else ilog2Aux fuel (n / 2) + 1

/-- Binary logarithm of a natural number, rounded down (`0` for `0` and `1`). -/
def ilog2 (n : Nat) : Nat := ilog2Aux n n

/-- The integer `e` with `2 ^ e ≤ n / d < 2 ^ (e + 1)`, for positive `n` and `d`. -/
def floorLog2 (n d : Nat) : Int :=
  let e0 : Int := (ilog2 n : Int) - (ilog2 d : Int)
  if d * 2 ^ e0.toNat ≤ n * 2 ^ (-e0).toNat then e0 else e0 - 1

/-- The quotient `n / d` rounded to the nearest integer, ties to even. -/
def divHalfEven (n d : Nat) : Nat :=
  let q := n / d
  let r := n % d
  if 2 * r < d then q else if d < 2 * r then q + 1 else if q % 2 = 0 then q else q + 1

/-- The `float64` nearest to `n / d` (ties to even), `none` when it rounds beyond the
largest finite `float64`. -/
def roundFrac (neg : Bool) (n d : Nat) : Option F64 :=
  if n = 0 then some ⟨neg, 0, -1074⟩ else
  let u : Int := max (floorLog2 n d - 52) (-1074)
  let m := divHalfEven (n * 2 ^ (-u).toNat) (d * 2 ^ u.toNat)
  let mu : Nat × Int := if m = 2 ^ 53 then (2 ^ 52, u + 1) else (m, u)
  if 971 < mu.2 then none else some ⟨neg, mu.1, mu.2⟩

/-- The call `strconv.ParseFloat(s, 64)` on a number literal of value `x`: the nearest
`float64`, or `none` for the range error. -/
def parseFloat (x : Decimal) : Option F64 :=
  if x.mant = 0 then some ⟨false, 0, -1074⟩ else
  roundFrac (decide (x.mant < 0)) (x.mant.natAbs * 10 ^ x.exp.toNat) (10 ^ (-x.exp).toNat)

/-- The decimal with last digit at position `10 ^ k` that reads back as `f`, if one of the
two multiples of `10 ^ k` around `f` does; the nearer one when both do. -/
def shortestAt (f : F64) (k : Int) : Option Decimal :=
  let num := f.mant * 2 ^ f.exp.toNat * 10 ^ (-k).toNat
  let den := 2 ^ (-f.exp).toNat * 10 ^ k.toNat
  let lo := num / den
  let r := num % den
  let pos : F64 := ⟨false, f.mant, f.exp⟩
  let okLo := decide (lo ≠ 0) && decide (parseFloat ⟨lo, k⟩ = some pos)
  let okHi := decide (parseFloat ⟨lo + 1, k⟩ = some pos)
  let pick : Option Nat :=
    if okLo && okHi then
      some (if 2 * r < den then lo else if den < 2 * r then lo + 1
            else if lo % 2 = 0 then lo else lo + 1)
    else if okLo then some lo
    else if okHi then some (lo + 1)
    else none
  pick.map fun c => ⟨if f.neg then -(c : Int) else c, k⟩

/-- Search for the coarsest decimal position at which `f` has a decimal that reads back;
with no fuel left, the exact value of `f`. -/
def shortestFrom (f : F64) : Nat → Int → Decimal
  | 0, _ =>
    if 0 ≤ f.exp then ⟨(if f.neg then -1 else 1) * (f.mant * 2 ^ f.exp.toNat : Nat), 0⟩
    else ⟨(if f.neg then -1 else 1) * (f.mant * 5 ^ (-f.exp).toNat : Nat), f.exp⟩
  | fuel + 1, k =>
    match shortestAt f k with
    | some d => d
    | none => shortestFrom f fuel (k - 1)

/-- The value of the literal `encoding/json` prints for `f`: `strconv` with precision
`-1`, the shortest decimal that `ParseFloat` reads back as `f`. -/
def formatFloat (f : F64) : Decimal :=
  if f.mant = 0 then ⟨0, 0⟩ else
  let k0 : Int := max 0 (((ilog2 f.mant : Int) + 1 + f.exp) / 3 + 1)
  shortestFrom f (k0.toNat + 1100) k0

/-! ## JSON documents and Go values -/

/-- A JSON document as the `encoding/json` scanner reads it. Object members are in source
order and keys may repeat; a number is its value; a string is the text Go unquotes it to
(escapes resolved, invalid UTF-8 and unpaired surrogates already replaced by U+FFFD). -/
inductive JSON where
  | null
  | bool (b : Bool)
  | num (d : Decimal)
  | str (s : String)
  | arr (xs : List JSON)
  | obj (kvs : List (String × JSON))

/-- What `json.Unmarshal` stores in an `interface{}`. A map is kept as its entries sorted
by key, one entry per key. -/
inductive GoVal where
  | nil
  | bool (b : Bool)
  | float64 (f : F64)
  | string (s : String)
  | slice (xs : List GoVal)
  | map (kvs : List (String × GoVal))

/-- Lexicographic order on code points, which is Go's byte order on UTF-8 strings. -/
def ltChars : List Char → List Char → Bool
  | _, [] => false
  | [], _ :: _ => true
  | a :: as, b :: bs =>
    if a.toNat < b.toNat then true
    else if b.toNat < a.toNat then false
    else ltChars as bs

/-- Go's `<` on strings. -/
def keyLt (a b : String) : Bool := ltChars a.data b.data

/-- The assignment `m[k] = v`. -/
def mapSet {α : Type} (k : String) (v : α) : List (String × α) → List (String × α)
  | [] => [(k, v)]
  | (k', v') :: rest =>
    if k = k' then (k, v) :: rest
    else if keyLt k k' then (k, v) :: (k', v') :: rest
    else (k', v') :: mapSet k v rest

/-- The call `delete(m, k)`. -/
def mapDelete {α : Type} (k : String) : List (String × α) → List (String × α)
  | [] => []
  | (k', v') :: rest =>
    if k = k' then mapDelete k rest else (k', v') :: mapDelete k rest

/-- The lookup `v, ok := m[k]`. -/
def mapGet {α : Type} (k : String) : List (String × α) → Option α
  | [] => none
  | (k', v') :: rest => if k = k' then some v' else mapGet k rest

/-- The keys of a map or of an object's member list. -/
def keysOf {α : Type} (m : List (String × α)) : List String := m.map Prod.fst

mutual
/-- Decoding into `interface{}`: numbers become `float64`, arrays `[]interface{}`,
objects `map[string]interface{}`. `none` when a number is out of range, in which case
`json.Unmarshal` returns an `UnmarshalTypeError`. -/
def decodeValue : JSON → Option GoVal
  | .null => some .nil
  | .bool b => some (.bool b)
  | .num d => (parseFloat d).map .float64
  | .str s => some (.string s)
  | .arr xs => (decodeArray xs).map .slice
  | .obj kvs => (decodeObject [] kvs).map .map
/-- Decoding of array elements, in order. -/
def decodeArray : List JSON → Option (List GoVal)
  | [] => some []
  | x :: xs =>
    match decodeValue x, decodeArray xs with
    | some v, some vs => some (v :: vs)
    | _, _ => none
/-- Decoding of object members into the map `m`, in source order: a later member with
the same key replaces the earlier one. -/
def decodeObject (m : List (String × GoVal)) : List (String × JSON) → Option (List (String × GoVal))
  | [] => some m
  | (k, x) :: rest =>
    match decodeValue x with
    | some v => decodeObject (mapSet k v m) rest
    | none => none
end

mutual
/-- The document `json.Marshal` prints for a value held in an `interface{}`; map entries
come out sorted by key. -/
def encodeValue : GoVal → JSON
  | .nil => .null
  | .bool b => .bool b
  | .float64 f => .num (formatFloat f)
  | .string s => .str s
  | .slice xs => .arr (encodeArray xs)
  | .map kvs => .obj (encodeObject kvs)
/-- Encoding of slice elements. -/
def encodeArray : List GoVal → List JSON
  | [] => []
  | x :: xs => encodeValue x :: encodeArray xs
/-- Encoding of map entries. -/
def encodeObject : List (String × GoVal) → List (String × JSON)
  | [] => []
  | (k, x) :: rest => (k, encodeValue x) :: encodeObject rest
end

/-- A Go `map[string]interface{}` variable: `none` is the nil map. -/
abbrev GoMap := Option (List (String × GoVal))

/-- The call `json.Unmarshal(body, &reqData)` with `reqData` a nil
`map[string]interface{}`, on a syntactically valid document: `none` is a returned error
(a top-level value that is neither an object nor `null`, or a number out of range). -/
def unmarshalMap : JSON → Option GoMap
  | .null => some none
  | .obj kvs => (decodeObject [] kvs).map some
  | _ => none

/-- The call `json.Marshal(reqData)`. -/
def marshalMap : GoMap → JSON
  | none => .null
  | some m => .obj (encodeObject m)

/-- Bytes together with the JSON document they spell: `json` is what the `encoding/json`
scanner reads from `raw`, `none` when `raw` is not one valid JSON text (the empty byte
string, a syntax error, trailing data, nesting beyond the scanner's depth limit). -/
structure Payload where
  raw : List UInt8
  json : Option JSON

/-- A request body as sent upstream: the inbound bytes untouched, or the bytes that
`json.Marshal` printed, given by the document they spell. -/
inductive WireBody where
  | bytes (raw : List UInt8)
  | marshalled (doc : JSON)

/-- The result of lines 56 to 71 of `handleProxy`. -/
structure Sanitized where
  body : WireBody
  isStreaming : Bool
  model : String

/-- Lines 56 to 71 of `handleProxy`: strip `context_management` and `mcp_servers`, read
`stream` and `model`, and marshal again; any failure leaves the body as it came. -/
def sanitizeBody (body : Payload) : Sanitized :=
  if 0 < body.raw.length then
    match body.json.bind unmarshalMap with
    | some reqData =>
      let reqData := reqData.map (mapDelete "context_management")
      let reqData := reqData.map (mapDelete "mcp_servers")
      let isStreaming :=
        match reqData.bind (mapGet "stream") with
        | some (.bool stream) => stream
        | _ => false
      let model :=
        match reqData.bind (mapGet "model") with
        | some (.string m) => m
        | _ => ""
      ⟨.marshalled (marshalMap reqData), isStreaming, model⟩
    | none => ⟨.bytes body.raw, false, ""⟩
  else ⟨.bytes body.raw, false, ""⟩

/-! ## `config.Config` and `config.GetToken` -/

/-- The struct `config.Config`. -/
structure Config where
  Target : String
  AuthType : String
  APIKey : String
  LoginURL : String
  CfAccess : Bool
  CfClientID : String
  CfClientSecret : String
  Proxy : String
  CACert : String
  InsecureSkip : Bool

/-- The file system as `os.ReadFile` sees it: `none` is a read error. -/
abbrev FileSystem := String → Option Payload

/-- The three errors `GetToken` builds with `fmt.Errorf`. -/
inductive TokenError where
  | readAuthFile
  | parseAuthFile
  | noToken (loginURL : String)
deriving DecidableEq, Repr

/-- The rune `encoding/json` folds a rune to when it matches member names to struct
fields without regard to case. Runes outside ASCII fold to a non-ASCII rune, except the
Kelvin sign and the long s; the model leaves the others in place, which agrees with Go
on every comparison against an ASCII field name. -/
def foldRune (c : Char) : Char :=
  if 97 ≤ c.toNat ∧ c.toNat ≤ 122 then Char.ofNat (c.toNat - 32)
  else if c.toNat = 0x212A then Char.ofNat 75
  else if c.toNat = 0x17F then Char.ofNat 83
  else c

/-- Whether a member name selects the field tagged `json:"token"`: the exact name, or a
name equal to it under case folding. -/
def isTokenField (name : String) : Bool :=
  decide (name = "token") || decide (name.data.map foldRune = "TOKEN".data)

/-- Decoding of an object's members into `struct { Token string }`, in source order;
`tok` is the field so far. A string sets the field, `null` leaves it, any other value
is an `UnmarshalTypeError`; members with other names are skipped. -/
def decodeTokenStruct (tok : String) : List (String × JSON) → Option String
  | [] => some tok
  | (name, x) :: rest =>
    if isTokenField name then
      match x with
      | .str s => decodeTokenStruct s rest
      | .null => decodeTokenStruct tok rest
      | _ => none
    else decodeTokenStruct tok rest

/-- Decoding of one map element into a zero `struct { Token string }`. -/
def decodeAuthEntry : JSON → Option String
  | .null => some ""
  | .obj fields => decodeTokenStruct "" fields
  | _ => none

/-- Decoding of the members of the auth file into the map `m`, in source order. -/
def decodeAuthEntries (m : List (String × String)) :
    List (String × JSON) → Option (List (String × String))
  | [] => some m
  | (k, x) :: rest =>
    match decodeAuthEntry x with
    | some tok => decodeAuthEntries (mapSet k tok m) rest
    | none => none

/-- The call `json.Unmarshal(data, &authMap)` with `authMap` a nil
`map[string]struct { Token string }`, on a syntactically valid document. -/
def unmarshalAuthMap : JSON → Option (Option (List (String × String)))
  | .null => some none
  | .obj kvs => (decodeAuthEntries [] kvs).map some
  | _ => none

/-- The function `config.GetToken`: the token and its kind. -/
def GetToken (fs : FileSystem) (cfg : Config) : Except TokenError (String × String) :=
  if cfg.AuthType = "apikey" then .ok (cfg.APIKey, "apikey")
  else
    match fs cfg.APIKey with
    | none => .error .readAuthFile
    | some data =>
      match data.json.bind unmarshalAuthMap with
      | none => .error .parseAuthFile
      | some authMap =>
        match authMap.bind (mapGet cfg.LoginURL) with
        | none => .error (.noToken cfg.LoginURL)
        | some auth => .ok (auth, "opencode")

/-! ## `net/http` headers -/

/-- The bytes `net/textproto` accepts in a header field name (RFC 7230 token). -/
def validHeaderFieldByte (c : Char) : Bool :=
  let n := c.toNat
  (48 ≤ n && n ≤ 57) || (65 ≤ n && n ≤ 90) || (97 ≤ n && n ≤ 122) ||
    "!#$%&*+-.^_|~".data.contains c || n = 39 || n = 96

/-- Upper case for the first letter and each letter after a dash, lower case elsewhere. -/
def canonLetters : Bool → List Char → List Char
  | _, [] => []
  | upper, c :: cs =>
    let n := c.toNat
    let c' :=
      if upper && 97 ≤ n && n ≤ 122 then Char.ofNat (n - 32)
      else if !upper && 65 ≤ n && n ≤ 90 then Char.ofNat (n + 32)
      else c
    c' :: canonLetters (c'.toNat = 45) cs

/-- The function `textproto.CanonicalMIMEHeaderKey`: a name with a byte outside the
token set is returned unchanged. -/
def canonicalMIMEHeaderKey (s : String) : String :=
  if s.data.all validHeaderFieldByte then String.mk (canonLetters true s.data) else s

/-- The type `http.Header`, a `map[string][]string`. -/
abbrev Header := List (String × List String)

/-- The method `Header.Set`. -/
def Header.Set (h : Header) (key value : String) : Header :=
  mapSet (canonicalMIMEHeaderKey key) [value] h

/-- The method `Header.Add`. -/
def Header.Add (h : Header) (key value : String) : Header :=
  mapSet (canonicalMIMEHeaderKey key)
    ((mapGet (canonicalMIMEHeaderKey key) h).getD [] ++ [value]) h

/-- The method `Header.Values`: every value stored for the key, `[]` when there is none. -/
def Header.Values (h : Header) (key : String) : List String :=
  (mapGet (canonicalMIMEHeaderKey key) h).getD []

/-! ## The handler `handleProxy` -/

/-- The inbound `*http.Request` as the handler reads it. `Body` is the result of
`io.ReadAll(r.Body)`, `none` when that read fails. -/
structure Request where
  Method : String
  Path : String
  Header : Header
  Body : Option Payload

/-- The request handed to `client.Do`. -/
structure UpstreamRequest where
  Method : String
  URL : String
  Header : Header
  Body : WireBody

/-- The upstream `*http.Response`. `Header` lists the map in the order `range` visits
it; `Body` holds the bytes the body yields before it ends, and `bodyErr` tells whether
it ends with an error other than `io.EOF`. The body hands its bytes out in pieces: the
`n`-th `Read` that `io.Copy` makes (counted from 0) yields `readSize n + 1` bytes, or
all that is left when that is less. -/
structure Response where
  StatusCode : Nat
  Header : Header
  Body : List UInt8
  bodyErr : Bool
  readSize : Nat → Nat

/-- What the handler needs from outside: the file system behind `GetToken`, whether
`http.NewRequest` accepts a method and URL, and the outcome of `client.Do` (an error text
for a transport failure). -/
structure Env where
  fs : FileSystem
  newRequestOk : String → String → Bool
  roundTrip : UpstreamRequest → Except String Response

/-- The caller's `http.ResponseWriter`: whether it implements `http.Flusher`, and whether
its `n`-th call of `Write` (counted from 0) succeeds. A call that fails is taken to
accept no byte. -/
structure ResponseWriter where
  canFlush : Bool
  writeOk : Nat → Bool

/-- The variables `lastModel` and `requestCount` that `Run` shares between requests. -/
structure ProxyState where
  lastModel : String
  requestCount : Nat

/-- One log call site of `handleProxy` with its arguments; the time stamp and the
elapsed time are left out. -/
inductive LogRecord where
  | request (reqID : Nat) (method path : String)
  | model (model : String)
  | start (reqID : Nat) (streamType : String)
  | requestInfo (reqID : Nat) (model : String) (isStreaming : Bool)
  | authFailed (reqID : Nat) (err : TokenError)
  | proxyTo (reqID : Nat) (upstreamURL : String)
  | upstreamFailed (reqID : Nat) (err : String)
  | response (reqID : Nat) (status : Nat)
  | noFlusher (reqID : Nat)
  | streamReadError (reqID : Nat)
  | streamWriteError (reqID : Nat)
  | done (reqID : Nat) (streamType : String) (bytes : Nat)
deriving DecidableEq, Repr

/-- The effects of the handler, in the order they happen. A `copy` is one call of
`io.Copy` with the bytes it delivered to the caller and whether it returned no error. -/
inductive Event where
  | log (debug : Bool) (rec : LogRecord)
  | httpError (msg : String) (code : Nat)
  | doRequest (req : UpstreamRequest)
  | setHeader (key value : String)
  | addHeader (key value : String)
  | writeHeader (code : Nat)
  | readFrame (line : List UInt8)
  | readEnd (isErr : Bool)
  | write (data : List UInt8) (ok : Bool)
  | flush
  | copy (data : List UInt8) (ok : Bool)
  | closeUpstreamBody
  | closeRequestBody

/-- The closure `logInfo`. -/
def logInfo (quiet : Bool) (rec : LogRecord) : List Event :=
  if !quiet then [.log false rec] else []

/-- The closure `logDebug`. -/
def logDebug (verbose quiet : Bool) (rec : LogRecord) : List Event :=
  if verbose && !quiet then [.log true rec] else []

/-- Lines 102 to 115 of `handleProxy`: the two fixed headers, then the auth headers. -/
def upstreamHeader (cfg : Config) (token authType : String) : Header :=
  let h : Header := []
  let h := h.Set "Content-Type" "application/json"
  let h := h.Set "anthropic-version" "2023-06-01"
  if cfg.CfAccess then
    let h := h.Set "cf-access-token" token
    if cfg.CfClientID ≠ "" ∧ cfg.CfClientSecret ≠ "" then
      let h := h.Set "CF-Access-Client-Id" cfg.CfClientID
      h.Set "CF-Access-Client-Secret" cfg.CfClientSecret
    else h
  else if authType = "apikey" then
    h.Set "x-api-key" token
  else
    h.Set "Authorization" ("Bearer " ++ token)

/-- The method `bufio.Reader.ReadBytes`: the bytes up to and including the first `delim`
and the bytes left in the reader; `none` when the input ends before a `delim`. -/
def readBytes (delim : UInt8) : List UInt8 → Option (List UInt8 × List UInt8)
  | [] => none
  | b :: rest =>
    if b = delim then some ([b], rest)
    else (readBytes delim rest).map fun p => (b :: p.1, p.2)

/-- The `for` loop of lines 142 to 156. `rest` is what the reader still holds, `n` the
number of `Write` calls made so far, `total` the variable `totalBytes`; the result is
the trace of the loop and the final `totalBytes`. Each round consumes at least one byte,
so `fuel` above the length of `rest` is never used up. -/
def relayLoop (verbose quiet : Bool) (reqID : Nat) (w : ResponseWriter) (bodyErr : Bool) :
    Nat → List UInt8 → Nat → Nat → List Event × Nat
  | 0, _, _, total => ([], total)
  | fuel + 1, rest, n, total =>
    match readBytes 10 rest with
    | none =>
      (.readEnd bodyErr ::
        (if bodyErr then logDebug verbose quiet (.streamReadError reqID) else []), total)
    | some (line, rest') =>
      let total := total + line.length
      if w.writeOk n then
        let out := relayLoop verbose quiet reqID w bodyErr fuel rest' (n + 1) total
        (.readFrame line :: .write line true :: .flush :: out.1, out.2)
      else
        (.readFrame line :: .write line false ::
          logDebug verbose quiet (.streamWriteError reqID), total)

/-- The call `io.Copy(w, resp.Body)` of line 165. Each round reads one piece of the
body and hands it to one `Write`; the loop ends when the body ends or at the first
`Write` that fails. `rest` is what the body still holds and `n` the number of the round.
The result is the bytes that the successful writes delivered, in order, and whether the
returned error is `nil`; the returned count `written` is the length of the former. Each
round consumes at least one byte, so `fuel` above the length of `rest` is never used
up. -/
def ioCopy (w : ResponseWriter) (readSize : Nat → Nat) (bodyErr : Bool) :
    Nat → List UInt8 → Nat → List UInt8 × Bool
  | 0, _, _ => ([], false)
  | _ + 1, [], _ => ([], !bodyErr)
  | fuel + 1, b :: rest, n =>
    let buf := (b :: rest).take (readSize n + 1)
    if w.writeOk n then
      let out := ioCopy w readSize bodyErr fuel ((b :: rest).drop (readSize n + 1)) (n + 1)
      (buf ++ out.1, out.2)
    else ([], false)

/-- Lines 159 to 163: every value of every upstream header, added to the caller's. -/
def copyHeaderEvents : Header → List Event
  | [] => []
  | (key, values) :: rest => values.map (Event.addHeader key) ++ copyHeaderEvents rest

/-- Lines 127 to 167 of `handleProxy`: the relay of the upstream response. -/
def relayResponse (verbose quiet : Bool) (reqID : Nat) (streamType : String)
    (isStreaming : Bool) (w : ResponseWriter) (resp : Response) : List Event :=
  if isStreaming && decide (resp.StatusCode = 200) then
    let hdr : List Event :=
      [.setHeader "Content-Type" "text/event-stream",
       .setHeader "Cache-Control" "no-cache",
       .setHeader "Connection" "keep-alive",
       .writeHeader 200]
    if !w.canFlush then
      hdr ++ logInfo quiet (.noFlusher reqID)
    else
      let out := relayLoop verbose quiet reqID w resp.bodyErr (resp.Body.length + 1) resp.Body 0 0
      hdr ++ out.1 ++ logInfo quiet (.done reqID streamType out.2)
  else
    let out := ioCopy w resp.readSize resp.bodyErr (resp.Body.length + 1) resp.Body 0
    let written := out.1.length
    copyHeaderEvents resp.Header ++
      [.writeHeader resp.StatusCode, .copy out.1 out.2] ++
      logInfo quiet (.done reqID streamType written)

/-- The closure `handleProxy` of `Run`: the trace of one request and the shared
variables after it. -/
def handleProxy (cfg : Config) (verbose quiet : Bool) (env : Env) (st : ProxyState)
    (w : ResponseWriter) (r : Request) : List Event × ProxyState :=
  let reqID := st.requestCount + 1
  let st : ProxyState := { st with requestCount := reqID }
  let ev0 := logDebug verbose quiet (.request reqID r.Method r.Path)
  match r.Body with
  | none => (ev0 ++ [.httpError "Failed to read request body" 400], st)
  | some inbound =>
    let s := sanitizeBody inbound
    let switch : Bool := decide (s.model ≠ "") && decide (s.model ≠ st.lastModel)
    let ev1 := if switch then logInfo quiet (.model s.model) else []
    let st : ProxyState := if switch then { st with lastModel := s.model } else st
    let streamType := if s.isStreaming then "stream" else "sync"
    let ev2 := logInfo quiet (.start reqID streamType) ++
      logDebug verbose quiet (.requestInfo reqID s.model s.isStreaming)
    match GetToken env.fs cfg with
    | .error err =>
      (ev0 ++ ev1 ++ ev2 ++ logInfo quiet (.authFailed reqID err) ++
        [.httpError "Failed to get auth token" 500, .closeRequestBody], st)
    | .ok (token, authType) =>
      let upstreamURL := cfg.Target ++ r.Path
      let ev3 := logDebug verbose quiet (.proxyTo reqID upstreamURL)
      if !env.newRequestOk r.Method upstreamURL then
        (ev0 ++ ev1 ++ ev2 ++ ev3 ++
          [.httpError "Failed to create upstream request" 500, .closeRequestBody], st)
      else
        let upstreamReq : UpstreamRequest :=
          ⟨r.Method, upstreamURL, upstreamHeader cfg token authType, s.body⟩
        match env.roundTrip upstreamReq with
        | .error err =>
          (ev0 ++ ev1 ++ ev2 ++ ev3 ++ [.doRequest upstreamReq] ++
            logInfo quiet (.upstreamFailed reqID err) ++
            [.httpError ("Upstream request failed: " ++ err) 502, .closeRequestBody], st)
        | .ok resp =>
          (ev0 ++ ev1 ++ ev2 ++ ev3 ++ [.doRequest upstreamReq] ++
            logDebug verbose quiet (.response reqID resp.StatusCode) ++
            relayResponse verbose quiet reqID streamType s.isStreaming w resp ++
            [.closeUpstreamBody, .closeRequestBody], st)

/-! ## Observations on a trace -/

/-- The status the caller receives: the code of the first `WriteHeader` or `http.Error`. -/
def callerStatus : List Event → Option Nat
  | [] => none
  | .writeHeader code :: _ => some code
  | .httpError _ code :: _ => some code
  | _ :: rest => callerStatus rest

/-- The requests handed to `client.Do`. -/
def upstreamRequests : List Event → List UpstreamRequest
  | [] => []
  | .doRequest req :: rest => req :: upstreamRequests rest
  | _ :: rest => upstreamRequests rest

/-- The header map of the caller's response, built by the handler's `Set` and `Add`
calls on `w.Header()` starting from the empty map. -/
def callerHeader (h : Header) : List Event → Header
  | [] => h
  | .setHeader key value :: rest => callerHeader (h.Set key value) rest
  | .addHeader key value :: rest => callerHeader (h.Add key value) rest
  | _ :: rest => callerHeader h rest

/-- The calls on the upstream body and on the caller's writer, in order: frame reads,
writes, flushes and calls of `io.Copy`. -/
def relayEvents : List Event → List Event
  | [] => []
  | .readFrame line :: rest => .readFrame line :: relayEvents rest
  | .readEnd isErr :: rest => .readEnd isErr :: relayEvents rest
  | .write data ok :: rest => .write data ok :: relayEvents rest
  | .flush :: rest => .flush :: relayEvents rest
  | .copy data ok :: rest => .copy data ok :: relayEvents rest
  | _ :: rest => relayEvents rest

/-- The byte strings of the successful `Write` calls the handler makes itself, one per
call. -/
def callerWrites : List Event → List (List UInt8)
  | [] => []
  | .write data true :: rest => data :: callerWrites rest
  | _ :: rest => callerWrites rest

/-- The `setHeader` calls of a trace. -/
def headerSets : List Event → List (String × String)
  | [] => []
  | .setHeader key value :: rest => (key, value) :: headerSets rest
  | _ :: rest => headerSets rest

/-- The log records of a trace. -/
def logRecords : List Event → List LogRecord
  | [] => []
  | .log _ rec :: rest => rec :: logRecords rest
  | _ :: rest => logRecords rest

deriving instance DecidableEq for Except

/-! ## Reference notions the theorems compare the code with -/

/-- The value an object's member list gives a key: that of its last member with the key. -/
def memberOf (k : String) : List (String × JSON) → Option JSON
  | [] => none
  | (k', x) :: rest =>
    match memberOf k rest with
    | some y => some y
    | none => if k = k' then some x else none

/-- Whether two number literals have the same value. -/
def Decimal.sameValue (a b : Decimal) : Prop :=
  a.mant * 10 ^ (a.exp - b.exp).toNat = b.mant * 10 ^ (b.exp - a.exp).toNat

instance (a b : Decimal) : Decidable (a.sameValue b) := by
  unfold Decimal.sameValue
  infer_instance

/-- The body `{"n":9007199254740993}`, whose number is `2 ^ 53 + 1`. -/
def bigIntegerBody : Payload :=
  ⟨[123, 34, 110, 34, 58, 57, 48, 48, 55, 49, 57, 57, 50, 53, 52, 55, 52, 48, 57, 57, 51, 125],
   some (.obj [("n", .num ⟨9007199254740993, 0⟩)])⟩

/-- The body `{"model":"m","stream":true,"mcp_servers":["x"],"t":0.7}`. -/
def sampleBody : Payload :=
  ⟨[123, 34, 109, 111, 100, 101, 108, 34, 58, 34, 109, 34, 44, 34, 115, 116, 114, 101, 97,
    109, 34, 58, 116, 114, 117, 101, 44, 34, 109, 99, 112, 95, 115, 101, 114, 118, 101, 114,
    115, 34, 58, 91, 34, 120, 34, 93, 44, 34, 116, 34, 58, 48, 46, 55, 125],
   some (.obj [("model", .str "m"), ("stream", .bool true),
     ("mcp_servers", .arr [.str "x"]), ("t", .num ⟨7, -1⟩)])⟩

/-- The map that `handleProxy` marshals, for a decoded object `m`. -/
def strippedMap (m : List (String × GoVal)) : List (String × GoVal) :=
  mapDelete "mcp_servers" (mapDelete "context_management" m)

/-- A body that is not JSON: the bytes of `not json ...`. -/
def garbageBody : Payload :=
  ⟨[110, 111, 116, 32, 106, 115, 111, 110, 32, 46, 46, 46], none⟩

/-- A configuration with a literal API key and no gateway. -/
def apiKeyConfig : Config :=
  ⟨"https://api.example", "apikey", "sk-test", "", false, "", "", "", "", false⟩

/-- An environment whose upstream answers every request with `resp`; no file exists. -/
def echoEnv (resp : Response) : Env :=
  ⟨fun _ => none, fun _ _ => true, fun _ => .ok resp⟩

/-- The upstream answer `200` with body `{"ok":true}` and one header. -/
def okResponse : Response :=
  ⟨200, [("Content-Type", ["application/json"])],
    [123, 34, 111, 107, 34, 58, 116, 114, 117, 101, 125], false, fun _ => 0⟩

/-- A response writer that can flush and whose writes all succeed. -/
def plainWriter : ResponseWriter := ⟨true, fun _ => true⟩

/-- The auth file `{"https://login.example":{"token":"tok"}}`. -/
def authFile : Payload :=
  ⟨[123, 34, 104, 116, 116, 112, 115, 58, 47, 47, 108, 111, 103, 105, 110, 46, 101, 120, 97,
    109, 112, 108, 101, 34, 58, 123, 34, 116, 111, 107, 101, 110, 34, 58, 34, 116, 111, 107,
    34, 125, 125],
   some (.obj [("https://login.example", .obj [("token", .str "tok")])])⟩

/-- A configuration that reads its token from `/auth.json` and goes through the gateway
with a client id and secret. -/
def gatewayConfig : Config :=
  ⟨"https://api.example", "opencode", "/auth.json", "https://login.example", true,
    "id", "secret", "", "", false⟩

/-- An environment with the auth file at `/auth.json` whose upstream answers `resp`. -/
def fileEnv (resp : Response) : Env :=
  ⟨fun path => if path = "/auth.json" then some authFile else none, fun _ _ => true,
    fun _ => .ok resp⟩

/-- Whether an object's members decode into `struct { Token string }`: each member that
selects the field `token` holds a string or `null`. -/
def tokenMembersOk : List (String × JSON) → Bool
  | [] => true
  | (name, x) :: rest =>
    (if isTokenField name then
      (match x with
        | .str _ => true
        | .null => true
        | _ => false)
     else true) && tokenMembersOk rest

/-- Whether a map element of the auth file decodes: an object whose `token` members are
strings or `null`, or `null` itself. -/
def authEntryShape : JSON → Bool
  | .null => true
  | .obj fields => tokenMembersOk fields
  | _ => false

/-- Whether every member of the auth file has the shape of an element. -/
def authEntriesShape : List (String × JSON) → Bool
  | [] => true
  | (_, x) :: rest => authEntryShape x && authEntriesShape rest

/-- The documents that decode into `map[string]struct { Token string }`: `null`, or an
object each of whose members is `null` or an object whose `token` members hold a string
or `null`. An entry need not have a `token` member. -/
def authFileShape : JSON → Bool
  | .null => true
  | .obj kvs => authEntriesShape kvs
  | _ => false

/-- The members of the auth file, none when it is not an object. -/
def authFileMembers : JSON → List (String × JSON)
  | .obj kvs => kvs
  | _ => []

/-- An API-key configuration whose key is the empty string. -/
def emptyKeyConfig : Config :=
  ⟨"https://api.example", "apikey", "", "", false, "", "", "", "", false⟩

/-- A newline-terminated frame: bytes without a newline, then one newline. -/
def IsFrame (f : List UInt8) : Prop :=
  ∃ content, f = content ++ [10] ∧ (10 : UInt8) ∉ content

/-- The events that touch neither the caller's response nor the upstream body: log
lines and the call of `client.Do`. -/
def Event.isAside : Event → Bool
  | .log _ _ => true
  | .doRequest _ => true
  | _ => false

/-- The bytes that reach the caller as the response body: those of the successful
writes and those the copies delivered, in order. -/
def callerBody : List Event → List UInt8
  | [] => []
  | .write data true :: rest => data ++ callerBody rest
  | .copy data _ :: rest => data ++ callerBody rest
  | _ :: rest => callerBody rest

/-- An upstream answer `200` whose body is the two frames `a\n` and `b\n`. -/
def streamResponse : Response :=
  ⟨200, [("Content-Type", ["text/event-stream"])], [97, 10, 98, 10], false, fun _ => 0⟩

/-- An upstream answer `429` with two values for one header and a two-line body, read
in pieces of three bytes. -/
def errorResponse : Response :=
  ⟨429, [("Content-Type", ["application/json"]), ("Set-Cookie", ["a=1", "b=2"])],
    [123, 10, 125, 10], false, fun _ => 2⟩

/-- The request `POST /v1/messages` with the sample body, which asks for streaming. -/
def sampleRequest : Request := ⟨"POST", "/v1/messages", [], some sampleBody⟩

/-- An environment in which `http.NewRequest` rejects the URL `https://api.example/100%zz`
(an invalid URL escape) and the upstream would answer `resp`. -/
def strictEnv (resp : Response) : Env :=
  ⟨fun _ => none, fun _ url => decide (url ≠ "https://api.example/100%zz"), fun _ => .ok resp⟩

/-- The request `GET /100%25zz`, whose decoded path is `/100%zz`. -/
def badPathRequest : Request := ⟨"GET", "/100%zz", [], some ⟨[], none⟩⟩

/-- An environment whose upstream call fails in transport with the error text `err`. -/
def downEnv (err : String) : Env :=
  ⟨fun _ => none, fun _ _ => true, fun _ => .error err⟩

/-- The body `{"stream":true,"mcp_servers":["x"],"n":1e400}`. -/
def hugeNumberBody : Payload :=
  ⟨[123, 34, 115, 116, 114, 101, 97, 109, 34, 58, 116, 114, 117, 101, 44, 34, 109, 99, 112,
    95, 115, 101, 114, 118, 101, 114, 115, 34, 58, 91, 34, 120, 34, 93, 44, 34, 110, 34, 58,
    49, 101, 52, 48, 48, 125],
   some (.obj [("stream", .bool true), ("mcp_servers", .arr [.str "x"]),
     ("n", .num ⟨1, 400⟩)])⟩

/-- One value through `json.Unmarshal` and back through `json.Marshal`. -/
def reencode (x : JSON) : Option JSON := (decodeValue x).map encodeValue

mutual
/-- The canonical form of a document: in every object the members are sorted by key and
a repeated key keeps its last value. Scalars, numbers included, are left as they are. -/
def canon : JSON → JSON
  | .null => .null
  | .bool b => .bool b
  | .num d => .num d
  | .str s => .str s
  | .arr xs => .arr (canonArray xs)
  | .obj kvs => .obj (canonObject [] kvs)
/-- Canonical form of array elements. -/
def canonArray : List JSON → List JSON
  | [] => []
  | x :: xs => canon x :: canonArray xs
/-- Canonical form of an object's members, added to `acc` in source order. -/
def canonObject (acc : List (String × JSON)) : List (String × JSON) → List (String × JSON)
  | [] => acc
  | (k, x) :: rest => canonObject (mapSet k (canon x) acc) rest
end

mutual
/-- Whether every number of a document survives the trip through `float64`: parsing it
and printing the result gives the number back. -/
def numbersStable : JSON → Bool
  | .null => true
  | .bool _ => true
  | .num d => decide ((parseFloat d).map formatFloat = some d)
  | .str _ => true
  | .arr xs => numbersStableArray xs
  | .obj kvs => numbersStableObject kvs
/-- The same for array elements. -/
def numbersStableArray : List JSON → Bool
  | [] => true
  | x :: xs => numbersStable x && numbersStableArray xs
/-- The same for the values of an object's members. -/
def numbersStableObject : List (String × JSON) → Bool
  | [] => true
  | (_, x) :: rest => numbersStable x && numbersStableObject rest
end

/-! ## The handler `handleHealth` -/

/-- What `handleHealth` does to the caller: its calls on `w.Header()` and the document
that `json.NewEncoder(w).Encode` writes, followed by a newline. -/
structure HealthReply where
  trace : List Event
  body : JSON

/-- The closure `handleHealth` of `Run`. -/
def handleHealth (cfg : Config) (env : Env) : HealthReply :=
  let hasToken : Bool :=
    match GetToken env.fs cfg with
    | .ok (token, _) => decide (token ≠ "")
    | .error _ => false
  let m : List (String × GoVal) := []
  let m := mapSet "status" (.string "ok") m
  let m := mapSet "target" (.string cfg.Target) m
  let m := mapSet "auth_type" (.string cfg.AuthType) m
  let m := mapSet "cf_access" (.bool cfg.CfAccess) m
  let m := mapSet "has_token" (.bool hasToken) m
  ⟨[.setHeader "Content-Type" "application/json"], encodeValue (.map m)⟩

/-- The status `net/http` sends for a trace: that of the first `WriteHeader` or
`http.Error`, and `200` when the handler writes or returns without either. -/
def responseStatus (trace : List Event) : Nat := (callerStatus trace).getD 200

/-! ## `config.CreateHTTPClient` and the start of `Run` -/

/-- The fields of `tls.Config` that `CreateHTTPClient` sets. -/
structure TLSConfig where
  InsecureSkipVerify : Bool
  RootCAs : Option (List UInt8)
deriving DecidableEq

/-- The `*http.Client` that `CreateHTTPClient` returns: the proxy URL and TLS
configuration of its transport, and its timeout in minutes. -/
structure HTTPClient where
  Proxy : Option String
  TLSClientConfig : Option TLSConfig
  Timeout : Nat
deriving DecidableEq

/-- The three errors `CreateHTTPClient` returns. -/
inductive ClientError where
  | invalidProxyURL
  | readCACert
  | parseCACert
deriving DecidableEq, Repr

/-- What `CreateHTTPClient` needs from outside: whether `url.Parse` accepts a string, the
file system, and whether `AppendCertsFromPEM` finds a certificate in a file's bytes. -/
structure Host where
  urlOk : String → Bool
  fs : FileSystem
  pemOk : List UInt8 → Bool

/-- The function `config.CreateHTTPClient`. -/
def CreateHTTPClient (host : Host) (cfg : Config) : Except ClientError HTTPClient :=
  if cfg.Proxy ≠ "" ∧ host.urlOk cfg.Proxy = false then .error .invalidProxyURL
  else
    let proxy : Option String := if cfg.Proxy ≠ "" then some cfg.Proxy else none
    if cfg.CACert ≠ "" ∨ cfg.InsecureSkip = true then
      let skip : Bool := if cfg.InsecureSkip then true else false
      if cfg.CACert ≠ "" then
        match host.fs cfg.CACert with
        | none => .error .readCACert
        | some caCert =>
          if host.pemOk caCert.raw = false then .error .parseCACert
          else .ok ⟨proxy, some ⟨skip, some caCert.raw⟩, 5⟩
      else .ok ⟨proxy, some ⟨skip, none⟩, 5⟩
    else .ok ⟨proxy, none, 5⟩

/-- One line that `Run` writes to the log or the console before it serves. -/
inductive ConsoleLine where
  | fatalClient (err : ClientError)
  | proxyBanner (bindAddr : String) (port : Int) (target : String)
  | authBanner (authType : String) (cfAccess : Bool)
  | verboseOn
  | blank
deriving DecidableEq, Repr

/-- The function `proxy.Run` up to the call of `http.ListenAndServe`, on the configuration
that `LoadConfig` returned: what it writes to the log and the console. -/
def Run (host : Host) (cfg : Config) (port : Int) (bindAddr : String)
    (verbose : Bool) : List ConsoleLine :=
  match CreateHTTPClient host cfg with
  | .error err => [.fatalClient err]
  | .ok _ =>
    [.proxyBanner bindAddr port cfg.Target, .authBanner cfg.AuthType cfg.CfAccess] ++
      (if verbose then [.verboseOn] else []) ++ [.blank]

/-! ## The command `config` -/

/-- The `for` loop of `cmd.Config` over the arguments still to read: a value-taking
option followed by an argument stores it and skips it, a value-taking option in last
place and every unknown argument change nothing, `--reset` puts `defaults` (the value of
`DefaultConfig()`) in place. -/
def Cmd.ConfigArgs (defaults : Config) : Config → List String → Config
  | cfg, [] => cfg
  | cfg, "--target" :: v :: rest => Cmd.ConfigArgs defaults { cfg with Target := v } rest
  | cfg, "--auth-type" :: v :: rest => Cmd.ConfigArgs defaults { cfg with AuthType := v } rest
  | cfg, "--api-key" :: v :: rest => Cmd.ConfigArgs defaults { cfg with APIKey := v } rest
  | cfg, "--login-url" :: v :: rest => Cmd.ConfigArgs defaults { cfg with LoginURL := v } rest
  | cfg, "--cf-access" :: rest => Cmd.ConfigArgs defaults { cfg with CfAccess := true } rest
  | cfg, "--no-cf-access" :: rest => Cmd.ConfigArgs defaults { cfg with CfAccess := false } rest
  | cfg, "--cf-client-id" :: v :: rest =>
    Cmd.ConfigArgs defaults { cfg with CfClientID := v } rest
  | cfg, "--cf-client-secret" :: v :: rest =>
    Cmd.ConfigArgs defaults { cfg with CfClientSecret := v } rest
  | cfg, "--proxy" :: v :: rest => Cmd.ConfigArgs defaults { cfg with Proxy := v } rest
  | cfg, "--ca-cert" :: v :: rest => Cmd.ConfigArgs defaults { cfg with CACert := v } rest
  | cfg, "--insecure-skip-verify" :: rest =>
    Cmd.ConfigArgs defaults { cfg with InsecureSkip := true } rest
  | cfg, "--no-insecure-skip-verify" :: rest =>
    Cmd.ConfigArgs defaults { cfg with InsecureSkip := false } rest
  | _, "--reset" :: rest => Cmd.ConfigArgs defaults defaults rest
  | cfg, _ :: rest => Cmd.ConfigArgs defaults cfg rest

/-- The function `cmd.Config` on the configuration `loaded` that `LoadConfig` returned:
the configuration handed to `SaveConfig`, `none` when there is no argument and the
command only prints. -/
def Cmd.Config (loaded defaults : Config) (args : List String) : Option Config :=
  if args.length = 0 then none else some (Cmd.ConfigArgs defaults loaded args)

deriving instance DecidableEq for Config

/-! ## Requests in sequence -/

/-- The calls of `handleProxy` for requests served one after another, each starting from
the shared variables the one before left: the traces, in order. -/
def serveAll (cfg : Config) (verbose quiet : Bool) (env : Env) :
    ProxyState → List (ResponseWriter × Request) → List (List Event)
  | _, [] => []
  | st, (w, r) :: rest =>
    (handleProxy cfg verbose quiet env st w r).1 ::
      serveAll cfg verbose quiet env (handleProxy cfg verbose quiet env st w r).2 rest

/-! ## Further reference notions -/

/-- The model a request names: the `model` string of its body, empty when the body
cannot be read or names none. -/
def requestModel (r : Request) : String :=
  match r.Body with
  | none => ""
  | some inbound => (sanitizeBody inbound).model

/-- The `MODEL` log lines of a trace. -/
def modelLines : List Event → List String
  | [] => []
  | .log _ (.model m) :: rest => m :: modelLines rest
  | _ :: rest => modelLines rest

/-- The `MODEL` lines expected of requests naming the models `ms` in turn, `active` being
the active model before them: one line for a non-empty model other than the active one,
which then becomes the active model; none otherwise. -/
def expectedModelLines (active : String) : List String → List (List String)
  | [] => []
  | m :: ms =>
    (if m ≠ "" ∧ m ≠ active then [m] else []) ::
      expectedModelLines (if m ≠ "" then m else active) ms

/-- The body up to and including its last newline, empty when it has no newline. -/
def uptoLastNewline : List UInt8 → List UInt8
  | [] => []
  | b :: rest => if b = 10 ∨ (10 : UInt8) ∈ rest then b :: uptoLastNewline rest else []

/-- The byte counts of the `DONE` log lines of a trace. -/
def doneBytes : List Event → List Nat
  | [] => []
  | .log _ (.done _ _ bytes) :: rest => bytes :: doneBytes rest
  | _ :: rest => doneBytes rest

/-- The header map the forwarding contract describes: the two fixed headers and the
headers of the one auth scheme in force, under their canonical names, sorted by name. -/
def expectedUpstreamHeader (cfg : Config) (token authType : String) : Header :=
  if cfg.CfAccess then
    if cfg.CfClientID ≠ "" ∧ cfg.CfClientSecret ≠ "" then
      [("Anthropic-Version", ["2023-06-01"]), ("Cf-Access-Client-Id", [cfg.CfClientID]),
       ("Cf-Access-Client-Secret", [cfg.CfClientSecret]), ("Cf-Access-Token", [token]),
       ("Content-Type", ["application/json"])]
    else
      [("Anthropic-Version", ["2023-06-01"]), ("Cf-Access-Token", [token]),
       ("Content-Type", ["application/json"])]
  else if authType = "apikey" then
    [("Anthropic-Version", ["2023-06-01"]), ("Content-Type", ["application/json"]),
     ("X-Api-Key", [token])]
  else
    [("Anthropic-Version", ["2023-06-01"]), ("Authorization", ["Bearer " ++ token]),
     ("Content-Type", ["application/json"])]

/-- A host on which every URL parses, no file exists and no PEM data is valid. -/
def bareHost : Host := ⟨fun _ => true, fun _ => none, fun _ => false⟩

/-- The API-key configuration with TLS verification switched off. -/
def insecureConfig : Config := { apiKeyConfig with InsecureSkip := true }

/-- The body `{}`, which names no model. -/
def emptyObjectBody : Payload := ⟨[123, 125], some (.obj [])⟩

/-- An upstream answer `200` whose body is the frame `a\n` followed by `bc` without a
newline. -/
def raggedResponse : Response :=
  ⟨200, [("Content-Type", ["text/event-stream"])], [97, 10, 98, 99], false, fun _ => 0⟩

/-- A response writer that can flush and whose second write fails. -/
def brokenWriter : ResponseWriter := ⟨true, fun n => decide (n ≠ 1)⟩

/-- An upstream answer `200` whose body is the three frames `a\n`, `b\n` and `c\n`. -/
def threeFrameResponse : Response :=
  ⟨200, [("Content-Type", ["text/event-stream"])], [97, 10, 98, 10, 99, 10], false, fun _ => 0⟩

/-- The function `config.DefaultConfig`, with `authPath` the value of
`filepath.Join(os.Getenv("HOME"), ".local/share/opencode/auth.json")`. -/
def DefaultConfig (authPath : String) : Config :=
  ⟨"https://opencode.custom.dev/anthropic", "opencode", authPath,
    "https://opencode.custom.dev", true, "", "", "", "", false⟩

/-- An upstream answer `200` whose body `aaabbb` is read in two pieces of three bytes. -/
def twoPieceResponse : Response :=
  ⟨200, [], [97, 97, 97, 98, 98, 98], false, fun _ => 2⟩

/-- Whether a value is an object with a member named `token`. -/
def hasTokenMember : JSON → Bool
  | .obj fields => fields.any fun p => decide (p.1 = "token")
  | _ => false

/-- The shape of the auth file in the words of the specification: an object that maps
keys to objects with a `token` field. -/
def statedAuthFileShape : JSON → Bool
  | .obj kvs => kvs.all fun p => hasTokenMember p.2
  | _ => false

/-- The string of the last member of an object that selects the field `token` and holds
a string, if there is one. -/
def lastTokenString : List (String × JSON) → Option String
  | [] => none
  | (name, x) :: rest =>
    match lastTokenString rest with
    | some s => some s
    | none =>
      match x with
      | .str s => if isTokenField name then some s else none
      | _ => none

/-- The token an entry of the auth file carries: the string of its last `token` member
that holds a string, and the empty string when it has none or is not an object. -/
def entryToken : JSON → String
  | .obj fields => (lastTokenString fields).getD ""
  | _ => ""

/-- The auth file `{"https://login.example":{}}`, whose one entry has no `token`. -/
def emptyEntryAuthFile : Payload :=
  ⟨[123, 34, 104, 116, 116, 112, 115, 58, 47, 47, 108, 111, 103, 105, 110, 46, 101, 120, 97,
    109, 112, 108, 101, 34, 58, 123, 125, 125],
   some (.obj [("https://login.example", .obj [])])⟩

mutual
/-- Whether every number of a document is within the range of `float64`, so that
`strconv.ParseFloat` returns no range error for it. -/
def numbersInRange : JSON → Bool
  | .null => true
  | .bool _ => true
  | .num d => (parseFloat d).isSome
  | .str _ => true
  | .arr xs => numbersInRangeArray xs
  | .obj kvs => numbersInRangeObject kvs
/-- The same for array elements. -/
def numbersInRangeArray : List JSON → Bool
  | [] => true
  | x :: xs => numbersInRange x && numbersInRangeArray xs
/-- The same for the values of an object's members. -/
def numbersInRangeObject : List (String × JSON) → Bool
  | [] => true
  | (_, x) :: rest => numbersInRange x && numbersInRangeObject rest
end

/-! ## Numbers -/

theorem ilog2Aux_spec (fuel : Nat) :
    ∀ n, 0 < n → n ≤ fuel → 2 ^ ilog2Aux fuel n ≤ n ∧ n < 2 ^ (ilog2Aux fuel n + 1) := by
  induction fuel with
  | zero => intro n h1 h2; omega
  | succ k ih =>
    intro n h1 h2
    by_cases hn : n < 2
    · have : n = 1 := by omega
      subst this
      simp [ilog2Aux]
    · have hhalf : 0 < n / 2 := Nat.div_pos (by omega) (by decide)
      have hle : n / 2 ≤ k := by omega
      obtain ⟨h3, h4⟩ := ih (n / 2) hhalf hle
      simp only [ilog2Aux, hn, if_false]
      constructor
      · rw [Nat.pow_succ]
        omega
      · rw [Nat.pow_succ]
        omega

/-- The function `ilog2` is the binary logarithm rounded down. -/
theorem ilog2_spec (n : Nat) (h : 0 < n) : 2 ^ ilog2 n ≤ n ∧ n < 2 ^ (ilog2 n + 1) :=
  ilog2Aux_spec n n h (Nat.le_refl n)

/-! ## Maps -/

theorem mapGet_mapSet {α : Type} (k k' : String) (v : α) (m : List (String × α)) :
    mapGet k (mapSet k' v m) = if k = k' then some v else mapGet k m := by
  induction m with
  | nil => simp [mapSet, mapGet]
  | cons p rest ih =>
    obtain ⟨a, b⟩ := p
    by_cases h1 : k' = a
    · subst h1
      by_cases h : k = k' <;> simp [mapSet, mapGet, h]
    · by_cases h2 : keyLt k' a = true
      · simp [mapSet, mapGet, h1, h2]
      · by_cases h3 : k = a
        · subst h3
          have h4 : ¬ k = k' := fun h => h1 h.symm
          simp [mapSet, mapGet, h1, h2, h4]
        · simp [mapSet, mapGet, h1, h2, h3, ih]

theorem mapGet_mapDelete {α : Type} (k k' : String) (m : List (String × α)) :
    mapGet k (mapDelete k' m) = if k = k' then none else mapGet k m := by
  induction m with
  | nil => simp [mapDelete, mapGet]
  | cons p rest ih =>
    obtain ⟨a, b⟩ := p
    by_cases h2 : k = k'
    · subst h2
      simp only [if_true] at ih
      by_cases h1 : k = a
      · subst h1
        simpa [mapDelete] using ih
      · simp [mapDelete, mapGet, ih, h1]
    · simp only [h2, if_false] at ih
      by_cases h1 : k' = a
      · subst h1
        simp [mapDelete, mapGet, ih, h2]
      · by_cases h3 : k = a
        · subst h3
          simp [mapDelete, mapGet, h1, h2]
        · simp [mapDelete, mapGet, ih, h1, h2, h3]

theorem mem_keysOf_iff {α : Type} (k : String) (m : List (String × α)) :
    k ∈ keysOf m ↔ (mapGet k m).isSome = true := by
  induction m with
  | nil => simp [keysOf, mapGet]
  | cons p rest ih =>
    obtain ⟨a, b⟩ := p
    by_cases h : k = a
    · simp [keysOf, mapGet, h]
    · have ih' : k ∈ List.map Prod.fst rest ↔ (mapGet k rest).isSome = true := ih
      simp [keysOf, mapGet, h, ih']

theorem mapGet_encodeObject (k : String) (m : List (String × GoVal)) :
    mapGet k (encodeObject m) = (mapGet k m).map encodeValue := by
  induction m with
  | nil => simp [encodeObject, mapGet]
  | cons p rest ih =>
    obtain ⟨a, b⟩ := p
    by_cases h : k = a
    · simp [encodeObject, mapGet, h]
    · simp [encodeObject, mapGet, h, ih]

theorem encodeObject_mapSet (k : String) (v : GoVal) (m : List (String × GoVal)) :
    encodeObject (mapSet k v m) = mapSet k (encodeValue v) (encodeObject m) := by
  induction m with
  | nil => simp [encodeObject, mapSet]
  | cons p rest ih =>
    obtain ⟨a, b⟩ := p
    by_cases h1 : k = a
    · simp [encodeObject, mapSet, h1]
    · by_cases h2 : keyLt k a = true
      · simp [encodeObject, mapSet, h1, h2]
      · simp [encodeObject, mapSet, h1, h2, ih]

theorem mem_keysOf_memberOf (k : String) (kvs : List (String × JSON)) :
    k ∈ keysOf kvs ↔ (memberOf k kvs).isSome = true := by
  induction kvs with
  | nil => simp [keysOf, memberOf]
  | cons p rest ih =>
    obtain ⟨a, b⟩ := p
    have ih' : k ∈ List.map Prod.fst rest ↔ (memberOf k rest).isSome = true := ih
    cases hm : memberOf k rest with
    | some y => simp [keysOf, memberOf, hm, ih'] 
    | none =>
      by_cases h : k = a
      · subst h
        simp [keysOf, memberOf, hm]
      · simp [keysOf, memberOf, hm, h, ih']

/-- Decoding an object's members into `acc` gives each key the decoding of its last
member, and leaves the keys that have no member as they are in `acc`. -/
theorem mapGet_decodeObject (k : String) (kvs : List (String × JSON)) :
    ∀ (acc m : List (String × GoVal)), decodeObject acc kvs = some m →
      mapGet k m = match memberOf k kvs with
        | some x => decodeValue x
        | none => mapGet k acc := by
  induction kvs with
  | nil =>
    intro acc m h
    simp [decodeObject] at h
    simp [memberOf, h]
  | cons p rest ih =>
    intro acc m h
    obtain ⟨a, b⟩ := p
    cases hb : decodeValue b with
    | none => simp [decodeObject, hb] at h
    | some v =>
      simp only [decodeObject, hb] at h
      have := ih (mapSet a v acc) m h
      rw [this]
      cases hm : memberOf k rest with
      | some y => simp [memberOf, hm]
      | none =>
        by_cases hk : k = a
        · subst hk
          simp [memberOf, hm, mapGet_mapSet, hb]
        · simp [memberOf, hm, hk, mapGet_mapSet]

/-- When decoding an object succeeds, each of its members decodes. -/
theorem decodeValue_isSome_of_decodeObject (kvs : List (String × JSON)) :
    ∀ (acc m : List (String × GoVal)), decodeObject acc kvs = some m →
      ∀ p ∈ kvs, (decodeValue p.2).isSome = true := by
  induction kvs with
  | nil => intro acc m _ p hp; simp at hp
  | cons q rest ih =>
    intro acc m h p hp
    obtain ⟨a, b⟩ := q
    cases hb : decodeValue b with
    | none => simp [decodeObject, hb] at h
    | some v =>
      simp only [decodeObject, hb] at h
      rcases List.mem_cons.mp hp with rfl | hp'
      · simp [hb]
      · exact ih _ _ h p hp'

/-! ## Re-encoding -/

mutual
theorem decodeValue_stable : ∀ (x : JSON), numbersStable x = true →
    ∃ g, decodeValue x = some g ∧ encodeValue g = canon x
  | .null, _ => ⟨.nil, by simp [decodeValue], by simp [encodeValue, canon]⟩
  | .bool b, _ => ⟨.bool b, by simp [decodeValue], by simp [encodeValue, canon]⟩
  | .str s, _ => ⟨.string s, by simp [decodeValue], by simp [encodeValue, canon]⟩
  | .num d, h => by
    simp only [numbersStable, decide_eq_true_eq] at h
    cases hp : parseFloat d with
    | none => simp [hp] at h
    | some f =>
      simp only [hp, Option.map_some', Option.some.injEq] at h
      exact ⟨.float64 f, by simp [decodeValue, hp], by simp [encodeValue, canon, h]⟩
  | .arr xs, h => by
    simp only [numbersStable] at h
    obtain ⟨gs, h1, h2⟩ := decodeArray_stable xs h
    exact ⟨.slice gs, by simp [decodeValue, h1], by simp [encodeValue, canon, h2]⟩
  | .obj kvs, h => by
    simp only [numbersStable] at h
    obtain ⟨m, h1, h2⟩ := decodeObject_stable kvs [] h
    exact ⟨.map m, by simp [decodeValue, h1], by simp [encodeValue, canon, h2, encodeObject]⟩
theorem decodeArray_stable : ∀ (xs : List JSON), numbersStableArray xs = true →
    ∃ gs, decodeArray xs = some gs ∧ encodeArray gs = canonArray xs
  | [], _ => ⟨[], by simp [decodeArray], by simp [encodeArray, canonArray]⟩
  | x :: xs, h => by
    simp only [numbersStableArray, Bool.and_eq_true] at h
    obtain ⟨g, h1, h2⟩ := decodeValue_stable x h.1
    obtain ⟨gs, h3, h4⟩ := decodeArray_stable xs h.2
    exact ⟨g :: gs, by simp [decodeArray, h1, h3], by simp [encodeArray, canonArray, h2, h4]⟩
theorem decodeObject_stable : ∀ (kvs : List (String × JSON)) (acc : List (String × GoVal)),
    numbersStableObject kvs = true →
    ∃ m, decodeObject acc kvs = some m ∧ encodeObject m = canonObject (encodeObject acc) kvs
  | [], acc, _ => ⟨acc, by simp [decodeObject], by simp [canonObject]⟩
  | (k, x) :: rest, acc, h => by
    simp only [numbersStableObject, Bool.and_eq_true] at h
    obtain ⟨g, h1, h2⟩ := decodeValue_stable x h.1
    obtain ⟨m, h3, h4⟩ := decodeObject_stable rest (mapSet k g acc) h.2
    exact ⟨m, by simp [decodeObject, h1, h3], by simp [canonObject, h4, encodeObject_mapSet, h2]⟩
end

/-- A value whose numbers survive the trip through `float64` is re-encoded as its
canonical form. -/
theorem reencode_of_numbersStable (x : JSON) (h : numbersStable x = true) :
    reencode x = some (canon x) := by
  obtain ⟨g, h1, h2⟩ := decodeValue_stable x h
  simp [reencode, h1, h2]

/-! ## The sanitizer -/

theorem decodeValue_eq_bool (x : JSON) (b : Bool) :
    decodeValue x = some (.bool b) ↔ x = .bool b := by
  cases x <;> simp [decodeValue]

theorem decodeValue_eq_string (x : JSON) (s : String) :
    decodeValue x = some (.string s) ↔ x = .str s := by
  cases x <;> simp [decodeValue]

/-- What `sanitizeBody` returns for a body that `json.Unmarshal` decodes as an object. -/
theorem sanitizeBody_of_object (body : Payload) (kvs : List (String × JSON))
    (m : List (String × GoVal)) (hraw : body.raw ≠ []) (hjson : body.json = some (.obj kvs))
    (hdec : decodeObject [] kvs = some m) :
    sanitizeBody body =
      ⟨.marshalled (.obj (encodeObject (strippedMap m))),
        (match mapGet "stream" (strippedMap m) with
          | some (.bool stream) => stream
          | _ => false),
        (match mapGet "model" (strippedMap m) with
          | some (.string s) => s
          | _ => "")⟩ := by
  have hlen : 0 < body.raw.length := List.length_pos.mpr hraw
  simp [sanitizeBody, hlen, hjson, unmarshalMap, hdec, marshalMap, strippedMap]


theorem memberOf_mem (k : String) (x : JSON) (kvs : List (String × JSON))
    (hx : memberOf k kvs = some x) : (k, x) ∈ kvs := by
  induction kvs with
  | nil => simp [memberOf] at hx
  | cons q rest ih =>
    obtain ⟨a, b⟩ := q
    cases hr : memberOf k rest with
    | some y =>
      simp only [memberOf, hr, Option.some.injEq] at hx
      exact List.mem_cons_of_mem _ (ih (hx ▸ hr))
    | none =>
      by_cases hk : k = a
      · subst hk
        simp only [memberOf, hr, if_true, Option.some.injEq] at hx
        subst hx
        exact List.mem_cons_self _ _
      · simp [memberOf, hr, hk] at hx

/-- The members of the marshalled object, key by key. -/
theorem mapGet_forwarded (kvs : List (String × JSON)) (m : List (String × GoVal))
    (hm : decodeObject [] kvs = some m) (k : String) :
    mapGet k (encodeObject (strippedMap m)) =
      if k = "mcp_servers" then none else if k = "context_management" then none
      else (memberOf k kvs).bind reencode := by
  rw [strippedMap, mapGet_encodeObject, mapGet_mapDelete, mapGet_mapDelete,
    mapGet_decodeObject k kvs [] m hm]
  by_cases h1 : k = "mcp_servers"
  · simp [h1]
  · by_cases h2 : k = "context_management"
    · simp [h2]
    · cases hk : memberOf k kvs with
      | none => simp [h1, h2, mapGet]
      | some x => simp [h1, h2, reencode]

/-- Each member of a decodable object has a re-encoding. -/
theorem reencode_isSome_of_memberOf (kvs : List (String × JSON)) (m : List (String × GoVal))
    (hm : decodeObject [] kvs = some m) (k : String) (x : JSON)
    (hx : memberOf k kvs = some x) : (reencode x).isSome = true := by
  have := decodeValue_isSome_of_decodeObject kvs [] m hm (k, x) (memberOf_mem k x kvs hx)
  cases hd : decodeValue x with
  | none => simp [hd] at this
  | some g => simp [reencode, hd]

/-- The keys of the marshalled object are the input's keys other than the two removed. -/
theorem mem_keysOf_forwarded (kvs : List (String × JSON)) (m : List (String × GoVal))
    (hm : decodeObject [] kvs = some m) (k : String) :
    k ∈ keysOf (encodeObject (strippedMap m)) ↔
      (k ∈ keysOf kvs ∧ k ≠ "context_management" ∧ k ≠ "mcp_servers") := by
  rw [mem_keysOf_iff, mapGet_forwarded kvs m hm k, mem_keysOf_memberOf]
  by_cases h1 : k = "mcp_servers"
  · simp [h1]
  · by_cases h2 : k = "context_management"
    · simp [h2]
    · cases hk : memberOf k kvs with
      | none => simp [h1, h2]
      | some x => simpa [h1, h2] using reencode_isSome_of_memberOf kvs m hm k x hk

/-- The flag and the model name that `sanitizeBody` reads from a decoded object are
those of the input's members. -/
theorem mapGet_strippedMap (kvs : List (String × JSON)) (m : List (String × GoVal))
    (hm : decodeObject [] kvs = some m) (k : String)
    (h1 : k ≠ "mcp_servers") (h2 : k ≠ "context_management") :
    mapGet k (strippedMap m) = (memberOf k kvs).bind decodeValue := by
  rw [strippedMap, mapGet_mapDelete, mapGet_mapDelete, mapGet_decodeObject k kvs [] m hm]
  cases hk : memberOf k kvs with
  | none => simp [h1, h2, mapGet]
  | some x => simp [h1, h2]


theorem parseFloat_out_of_range : parseFloat ⟨1, 400⟩ = none := by decide!

/-- A number outside the range of `float64` makes `json.Unmarshal` fail, so the body
`{"stream":true,"mcp_servers":["x"],"n":1e400}`, although valid JSON, is passed through
as it came, like a body that is not JSON. -/
theorem sanitizeBody_number_out_of_range :
    sanitizeBody hugeNumberBody = ⟨.bytes hugeNumberBody.raw, false, ""⟩ := by
  simp [sanitizeBody, hugeNumberBody, unmarshalMap, decodeObject, decodeValue, decodeArray,
    mapSet, keyLt, parseFloat_out_of_range]

/-! ## Traces -/

theorem upstreamRequests_append (a b : List Event) :
    upstreamRequests (a ++ b) = upstreamRequests a ++ upstreamRequests b := by
  induction a with
  | nil => simp [upstreamRequests]
  | cons e rest ih => cases e <;> simp [upstreamRequests, ih]

theorem upstreamRequests_logInfo (quiet : Bool) (rec : LogRecord) :
    upstreamRequests (logInfo quiet rec) = [] := by
  cases quiet <;> simp [logInfo, upstreamRequests]

theorem upstreamRequests_logDebug (verbose quiet : Bool) (rec : LogRecord) :
    upstreamRequests (logDebug verbose quiet rec) = [] := by
  cases verbose <;> cases quiet <;> simp [logDebug, upstreamRequests]

theorem upstreamRequests_relayLoop (verbose quiet : Bool) (reqID : Nat) (w : ResponseWriter)
    (bodyErr : Bool) (fuel : Nat) :
    ∀ (rest : List UInt8) (n total : Nat),
      upstreamRequests (relayLoop verbose quiet reqID w bodyErr fuel rest n total).1 = [] := by
  induction fuel with
  | zero => intro rest n total; simp [relayLoop, upstreamRequests]
  | succ fuel ih =>
    intro rest n total
    cases hr : readBytes 10 rest with
    | none =>
      cases bodyErr <;>
        simp [relayLoop, hr, upstreamRequests, upstreamRequests_logDebug]
    | some p =>
      obtain ⟨line, rest'⟩ := p
      cases hw : w.writeOk n <;>
        simp [relayLoop, hr, hw, upstreamRequests, upstreamRequests_logDebug, ih]

theorem upstreamRequests_copyHeaderEvents (h : Header) :
    upstreamRequests (copyHeaderEvents h) = [] := by
  induction h with
  | nil => simp [copyHeaderEvents, upstreamRequests]
  | cons p rest ih =>
    obtain ⟨key, values⟩ := p
    have : upstreamRequests (values.map (Event.addHeader key)) = [] := by
      induction values with
      | nil => simp [upstreamRequests]
      | cons v vs ihv => simp [upstreamRequests, ihv]
    simp [copyHeaderEvents, upstreamRequests_append, this, ih]

theorem upstreamRequests_relayResponse (verbose quiet : Bool) (reqID : Nat)
    (streamType : String) (isStreaming : Bool) (w : ResponseWriter) (resp : Response) :
    upstreamRequests (relayResponse verbose quiet reqID streamType isStreaming w resp) = [] := by
  unfold relayResponse
  split
  · split <;>
      simp [upstreamRequests_append, upstreamRequests, upstreamRequests_logInfo,
        upstreamRequests_relayLoop]
  · simp [upstreamRequests_append, upstreamRequests, upstreamRequests_logInfo,
      upstreamRequests_copyHeaderEvents]

/-- The request `handleProxy` hands to `client.Do` once the body is read, the credential
resolved and the request built: one request, whatever the upstream then answers. -/
theorem upstreamRequests_handleProxy (cfg : Config) (verbose quiet : Bool) (env : Env)
    (st : ProxyState) (w : ResponseWriter) (r : Request) (inbound : Payload)
    (token authType : String) (hbody : r.Body = some inbound)
    (htok : GetToken env.fs cfg = .ok (token, authType))
    (hreq : env.newRequestOk r.Method (cfg.Target ++ r.Path) = true) :
    upstreamRequests (handleProxy cfg verbose quiet env st w r).1 =
      [⟨r.Method, cfg.Target ++ r.Path, upstreamHeader cfg token authType,
        (sanitizeBody inbound).body⟩] := by
  unfold handleProxy
  simp only [hbody, htok, hreq]
  cases hrt : env.roundTrip ⟨r.Method, cfg.Target ++ r.Path, upstreamHeader cfg token authType,
        (sanitizeBody inbound).body⟩ with
  | error err =>
    simp only [Bool.not_true, Bool.false_eq_true, if_false, hrt]
    split <;>
      simp [upstreamRequests_append, upstreamRequests, upstreamRequests_logInfo,
        upstreamRequests_logDebug]
  | ok resp =>
    simp only [Bool.not_true, Bool.false_eq_true, if_false, hrt]
    split <;>
      simp [upstreamRequests_append, upstreamRequests, upstreamRequests_logInfo,
        upstreamRequests_logDebug, upstreamRequests_relayResponse]

/-! ## Headers -/

theorem values_set (h : Header) (key value k : String) :
    (h.Set key value).Values k =
      if canonicalMIMEHeaderKey k = canonicalMIMEHeaderKey key then [value] else h.Values k := by
  unfold Header.Set Header.Values
  rw [mapGet_mapSet]
  split <;> simp

theorem values_add (h : Header) (key value k : String) :
    (h.Add key value).Values k =
      if canonicalMIMEHeaderKey k = canonicalMIMEHeaderKey key then h.Values k ++ [value]
      else h.Values k := by
  unfold Header.Add Header.Values
  rw [mapGet_mapSet]
  split
  · next hk => simp [hk]
  · simp

theorem values_nil (k : String) : Header.Values [] k = [] := by
  simp [Header.Values, mapGet]

/-- The auth headers that lines 105 to 115 leave in the upstream header map, scheme by
scheme. -/
theorem upstreamHeader_values (cfg : Config) (token authType : String) :
    (cfg.CfAccess = true →
      (upstreamHeader cfg token authType).Values "cf-access-token" = [token] ∧
      (upstreamHeader cfg token authType).Values "CF-Access-Client-Id" =
        (if cfg.CfClientID ≠ "" ∧ cfg.CfClientSecret ≠ "" then [cfg.CfClientID] else []) ∧
      (upstreamHeader cfg token authType).Values "CF-Access-Client-Secret" =
        (if cfg.CfClientID ≠ "" ∧ cfg.CfClientSecret ≠ "" then [cfg.CfClientSecret] else []) ∧
      (upstreamHeader cfg token authType).Values "x-api-key" = [] ∧
      (upstreamHeader cfg token authType).Values "Authorization" = []) ∧
    (cfg.CfAccess = false → authType = "apikey" →
      (upstreamHeader cfg token authType).Values "x-api-key" = [token] ∧
      (upstreamHeader cfg token authType).Values "cf-access-token" = [] ∧
      (upstreamHeader cfg token authType).Values "CF-Access-Client-Id" = [] ∧
      (upstreamHeader cfg token authType).Values "CF-Access-Client-Secret" = [] ∧
      (upstreamHeader cfg token authType).Values "Authorization" = []) ∧
    (cfg.CfAccess = false → authType ≠ "apikey" →
      (upstreamHeader cfg token authType).Values "Authorization" = ["Bearer " ++ token] ∧
      (upstreamHeader cfg token authType).Values "cf-access-token" = [] ∧
      (upstreamHeader cfg token authType).Values "CF-Access-Client-Id" = [] ∧
      (upstreamHeader cfg token authType).Values "CF-Access-Client-Secret" = [] ∧
      (upstreamHeader cfg token authType).Values "x-api-key" = []) := by
  have c1 : canonicalMIMEHeaderKey "cf-access-token" = "Cf-Access-Token" := by decide
  have c2 : canonicalMIMEHeaderKey "CF-Access-Client-Id" = "Cf-Access-Client-Id" := by decide
  have c3 : canonicalMIMEHeaderKey "CF-Access-Client-Secret" = "Cf-Access-Client-Secret" := by
    decide
  have c4 : canonicalMIMEHeaderKey "x-api-key" = "X-Api-Key" := by decide
  have c5 : canonicalMIMEHeaderKey "Authorization" = "Authorization" := by decide
  have c6 : canonicalMIMEHeaderKey "Content-Type" = "Content-Type" := by decide
  have c7 : canonicalMIMEHeaderKey "anthropic-version" = "Anthropic-Version" := by decide
  refine ⟨?_, ?_, ?_⟩
  · intro hcf
    by_cases hboth : cfg.CfClientID ≠ "" ∧ cfg.CfClientSecret ≠ ""
    · simp [upstreamHeader, hcf, hboth, values_set, values_nil, c1, c2, c3, c4, c5, c6, c7]
    · simp [upstreamHeader, hcf, hboth, values_set, values_nil, c1, c2, c3, c4, c5, c6, c7]
  · intro hcf hkind
    simp [upstreamHeader, hcf, hkind, values_set, values_nil, c1, c2, c3, c4, c5, c6, c7]
  · intro hcf hkind
    simp [upstreamHeader, hcf, hkind, values_set, values_nil, c1, c2, c3, c4, c5, c6, c7]

/-! ## The auth file -/

theorem decodeTokenStruct_isSome (fields : List (String × JSON)) :
    ∀ tok, (decodeTokenStruct tok fields).isSome = tokenMembersOk fields := by
  induction fields with
  | nil => intro tok; simp [decodeTokenStruct, tokenMembersOk]
  | cons p rest ih =>
    intro tok
    obtain ⟨name, x⟩ := p
    by_cases hn : isTokenField name = true
    · cases x <;> simp [decodeTokenStruct, tokenMembersOk, hn, ih]
    · simp [decodeTokenStruct, tokenMembersOk, hn, ih]

theorem decodeAuthEntry_isSome (x : JSON) :
    (decodeAuthEntry x).isSome = authEntryShape x := by
  cases x <;> simp [decodeAuthEntry, authEntryShape, decodeTokenStruct_isSome]

theorem decodeAuthEntries_isSome (kvs : List (String × JSON)) :
    ∀ acc, (decodeAuthEntries acc kvs).isSome = authEntriesShape kvs := by
  induction kvs with
  | nil => intro acc; simp [decodeAuthEntries, authEntriesShape]
  | cons p rest ih =>
    intro acc
    obtain ⟨k, x⟩ := p
    have hx := decodeAuthEntry_isSome x
    cases hd : decodeAuthEntry x with
    | none =>
      rw [hd] at hx
      simp [decodeAuthEntries, authEntriesShape, hd, ← hx]
    | some tok =>
      rw [hd] at hx
      simp [decodeAuthEntries, authEntriesShape, hd, ← hx, ih]

theorem unmarshalAuthMap_isSome (doc : JSON) :
    (unmarshalAuthMap doc).isSome = authFileShape doc := by
  cases doc <;> simp [unmarshalAuthMap, authFileShape, decodeAuthEntries_isSome]

/-- Decoding the auth file gives each key the token of its last member. -/
theorem mapGet_decodeAuthEntries (k : String) (kvs : List (String × JSON)) :
    ∀ (acc m : List (String × String)), decodeAuthEntries acc kvs = some m →
      mapGet k m = match memberOf k kvs with
        | some x => decodeAuthEntry x
        | none => mapGet k acc := by
  induction kvs with
  | nil =>
    intro acc m h
    simp [decodeAuthEntries] at h
    simp [memberOf, h]
  | cons p rest ih =>
    intro acc m h
    obtain ⟨a, b⟩ := p
    cases hb : decodeAuthEntry b with
    | none => simp [decodeAuthEntries, hb] at h
    | some v =>
      simp only [decodeAuthEntries, hb] at h
      rw [ih (mapSet a v acc) m h]
      cases hm : memberOf k rest with
      | some y => simp [memberOf, hm]
      | none =>
        by_cases hk : k = a
        · subst hk
          simp [memberOf, hm, mapGet_mapSet, hb]
        · simp [memberOf, hm, hk, mapGet_mapSet]

/-- When the auth file decodes, each of its members decodes. -/
theorem decodeAuthEntry_isSome_of_entries (kvs : List (String × JSON)) :
    ∀ (acc m : List (String × String)), decodeAuthEntries acc kvs = some m →
      ∀ p ∈ kvs, (decodeAuthEntry p.2).isSome = true := by
  induction kvs with
  | nil => intro acc m _ p hp; simp at hp
  | cons q rest ih =>
    intro acc m h p hp
    obtain ⟨a, b⟩ := q
    cases hb : decodeAuthEntry b with
    | none => simp [decodeAuthEntries, hb] at h
    | some v =>
      simp only [decodeAuthEntries, hb] at h
      rcases List.mem_cons.mp hp with rfl | hp'
      · simp [hb]
      · exact ih _ _ h p hp'

/-- The lookup `authMap[cfg.LoginURL]` after a successful decoding of the auth file. -/
theorem authMap_lookup (doc : JSON) (authMap : Option (List (String × String)))
    (h : unmarshalAuthMap doc = some authMap) (k : String) :
    authMap.bind (mapGet k) = (memberOf k (authFileMembers doc)).bind decodeAuthEntry := by
  cases doc with
  | null =>
    simp [unmarshalAuthMap] at h
    subst h
    simp [authFileMembers, memberOf]
  | obj kvs =>
    cases hd : decodeAuthEntries [] kvs with
    | none => simp [unmarshalAuthMap, hd] at h
    | some m =>
      simp [unmarshalAuthMap, hd] at h
      subst h
      have := mapGet_decodeAuthEntries k kvs [] m hd
      simp only [Option.bind, authFileMembers]
      rw [this]
      cases hm : memberOf k kvs with
      | none => simp [mapGet]
      | some x => simp
  | bool b => simp [unmarshalAuthMap] at h
  | num d => simp [unmarshalAuthMap] at h
  | str s => simp [unmarshalAuthMap] at h
  | arr xs => simp [unmarshalAuthMap] at h

/-- What `GetToken` computes for a token-file configuration, file by file. -/
theorem GetToken_of_file (fs : FileSystem) (cfg : Config) (hkind : cfg.AuthType ≠ "apikey")
    (data : Payload) (doc : JSON) (hfile : fs cfg.APIKey = some data)
    (hjson : data.json = some doc) (hshape : authFileShape doc = true) :
    GetToken fs cfg =
      match memberOf cfg.LoginURL (authFileMembers doc) with
      | none => .error (.noToken cfg.LoginURL)
      | some x => .ok ((decodeAuthEntry x).getD "", "opencode") := by
  have hsome := unmarshalAuthMap_isSome doc
  rw [hshape] at hsome
  cases hu : unmarshalAuthMap doc with
  | none => simp [hu] at hsome
  | some authMap =>
    have hl := authMap_lookup doc authMap hu cfg.LoginURL
    unfold GetToken
    simp only [hkind, if_false, hfile, hjson, Option.bind, hu]
    simp only [Option.bind] at hl
    rw [hl]
    cases hm : memberOf cfg.LoginURL (authFileMembers doc) with
    | none => simp
    | some x =>
      have hx : (decodeAuthEntry x).isSome = true := by
        cases doc with
        | obj kvs =>
          cases hd : decodeAuthEntries [] kvs with
          | none => simp [unmarshalAuthMap, hd] at hu
          | some m =>
            exact decodeAuthEntry_isSome_of_entries kvs [] m hd (cfg.LoginURL, x)
              (memberOf_mem _ _ _ hm)
        | null => simp [authFileMembers, memberOf] at hm
        | bool b => simp [authFileMembers, memberOf] at hm
        | num d => simp [authFileMembers, memberOf] at hm
        | str s => simp [authFileMembers, memberOf] at hm
        | arr xs => simp [authFileMembers, memberOf] at hm
      cases hd : decodeAuthEntry x with
      | none => simp [hd] at hx
      | some tok => simp [hd]

/-! ## The shape of a trace -/

theorem isAside_logInfo (quiet : Bool) (rec : LogRecord) :
    ∀ e ∈ logInfo quiet rec, e.isAside = true := by
  cases quiet <;> simp [logInfo, Event.isAside]

theorem isAside_logDebug (verbose quiet : Bool) (rec : LogRecord) :
    ∀ e ∈ logDebug verbose quiet rec, e.isAside = true := by
  cases verbose <;> cases quiet <;> simp [logDebug, Event.isAside]

theorem callerStatus_aside (pre rest : List Event) (h : ∀ e ∈ pre, e.isAside = true) :
    callerStatus (pre ++ rest) = callerStatus rest := by
  induction pre with
  | nil => rfl
  | cons e es ih =>
    have he := h e (List.mem_cons_self _ _)
    have hes : ∀ x ∈ es, x.isAside = true := fun x hx => h x (List.mem_cons_of_mem _ hx)
    cases e <;>
      first
      | (simp only [List.cons_append, callerStatus]; exact ih hes)
      | (simp [Event.isAside] at he)

theorem relayEvents_aside (pre rest : List Event) (h : ∀ e ∈ pre, e.isAside = true) :
    relayEvents (pre ++ rest) = relayEvents rest := by
  induction pre with
  | nil => rfl
  | cons e es ih =>
    have he := h e (List.mem_cons_self _ _)
    have hes : ∀ x ∈ es, x.isAside = true := fun x hx => h x (List.mem_cons_of_mem _ hx)
    cases e <;>
      first
      | (simp only [List.cons_append, relayEvents]; exact ih hes)
      | (simp [Event.isAside] at he)

theorem callerWrites_aside (pre rest : List Event) (h : ∀ e ∈ pre, e.isAside = true) :
    callerWrites (pre ++ rest) = callerWrites rest := by
  induction pre with
  | nil => rfl
  | cons e es ih =>
    have he := h e (List.mem_cons_self _ _)
    have hes : ∀ x ∈ es, x.isAside = true := fun x hx => h x (List.mem_cons_of_mem _ hx)
    cases e <;>
      first
      | (simp only [List.cons_append, callerWrites]; exact ih hes)
      | (simp [Event.isAside] at he)

theorem callerBody_aside (pre rest : List Event) (h : ∀ e ∈ pre, e.isAside = true) :
    callerBody (pre ++ rest) = callerBody rest := by
  induction pre with
  | nil => rfl
  | cons e es ih =>
    have he := h e (List.mem_cons_self _ _)
    have hes : ∀ x ∈ es, x.isAside = true := fun x hx => h x (List.mem_cons_of_mem _ hx)
    cases e <;>
      first
      | (simp only [List.cons_append, callerBody]; exact ih hes)
      | (simp [Event.isAside] at he)

theorem headerSets_aside (pre rest : List Event) (h : ∀ e ∈ pre, e.isAside = true) :
    headerSets (pre ++ rest) = headerSets rest := by
  induction pre with
  | nil => rfl
  | cons e es ih =>
    have he := h e (List.mem_cons_self _ _)
    have hes : ∀ x ∈ es, x.isAside = true := fun x hx => h x (List.mem_cons_of_mem _ hx)
    cases e <;>
      first
      | (simp only [List.cons_append, headerSets]; exact ih hes)
      | (simp [Event.isAside] at he)

theorem callerHeader_aside (pre rest : List Event) (h : ∀ e ∈ pre, e.isAside = true) :
    ∀ hd, callerHeader hd (pre ++ rest) = callerHeader hd rest := by
  induction pre with
  | nil => intro hd; rfl
  | cons e es ih =>
    intro hd
    have he := h e (List.mem_cons_self _ _)
    have hes : ∀ x ∈ es, x.isAside = true := fun x hx => h x (List.mem_cons_of_mem _ hx)
    cases e <;>
      first
      | (simp only [List.cons_append, callerHeader]; exact ih hes hd)
      | (simp [Event.isAside] at he)

/-- The trace of `handleProxy` when the upstream answers: log lines and the upstream
call, then the relay of the response, then the two deferred `Close` calls. -/
theorem handleProxy_of_response (cfg : Config) (verbose quiet : Bool) (env : Env)
    (st : ProxyState) (w : ResponseWriter) (r : Request) (inbound : Payload)
    (token authType : String) (resp : Response) (hbody : r.Body = some inbound)
    (htok : GetToken env.fs cfg = .ok (token, authType))
    (hreq : env.newRequestOk r.Method (cfg.Target ++ r.Path) = true)
    (hresp : env.roundTrip ⟨r.Method, cfg.Target ++ r.Path,
      upstreamHeader cfg token authType, (sanitizeBody inbound).body⟩ = .ok resp) :
    ∃ pre, (∀ e ∈ pre, e.isAside = true) ∧
      (handleProxy cfg verbose quiet env st w r).1 =
        pre ++ (relayResponse verbose quiet (st.requestCount + 1)
            (if (sanitizeBody inbound).isStreaming then "stream" else "sync")
            (sanitizeBody inbound).isStreaming w resp ++
          [.closeUpstreamBody, .closeRequestBody]) := by
  refine ⟨logDebug verbose quiet (.request (st.requestCount + 1) r.Method r.Path) ++
      (if (decide ((sanitizeBody inbound).model ≠ "") &&
          decide ((sanitizeBody inbound).model ≠ st.lastModel)) = true
        then logInfo quiet (.model (sanitizeBody inbound).model) else []) ++
      (logInfo quiet (.start (st.requestCount + 1)
          (if (sanitizeBody inbound).isStreaming then "stream" else "sync")) ++
        logDebug verbose quiet (.requestInfo (st.requestCount + 1)
          (sanitizeBody inbound).model (sanitizeBody inbound).isStreaming)) ++
      logDebug verbose quiet (.proxyTo (st.requestCount + 1) (cfg.Target ++ r.Path)) ++
      [.doRequest ⟨r.Method, cfg.Target ++ r.Path, upstreamHeader cfg token authType,
        (sanitizeBody inbound).body⟩] ++
      logDebug verbose quiet (.response (st.requestCount + 1) resp.StatusCode), ?_, ?_⟩
  · intro e he
    simp only [List.mem_append, List.mem_singleton] at he
    rcases he with ((((he | he) | he | he) | he) | he) | he
    · exact isAside_logDebug _ _ _ e he
    · split at he
      · exact isAside_logInfo _ _ e he
      · simp at he
    · exact isAside_logInfo _ _ e he
    · exact isAside_logDebug _ _ _ e he
    · exact isAside_logDebug _ _ _ e he
    · subst he; rfl
    · exact isAside_logDebug _ _ _ e he
  · unfold handleProxy
    simp only [hbody, htok, hreq, hresp, Bool.not_true, Bool.false_eq_true, if_false,
      List.append_assoc]

/-! ## The relay -/

theorem readBytes_frame (f rest : List UInt8) (hf : IsFrame f) :
    readBytes 10 (f ++ rest) = some (f, rest) := by
  obtain ⟨content, rfl, hc⟩ := hf
  induction content with
  | nil => simp [readBytes]
  | cons b bs ih =>
    have hb : b ≠ 10 := fun h => hc (h ▸ List.mem_cons_self _ _)
    have hbs : (10 : UInt8) ∉ bs := fun h => hc (List.mem_cons_of_mem _ h)
    have := ih hbs
    simp only [List.cons_append, List.append_assoc, List.singleton_append,
      List.nil_append] at this ⊢
    simp [readBytes, hb, this]

/-- With every write succeeding, the loop relays a body made of frames frame by frame:
read, write, flush, and at the end the read that finds the body exhausted. -/
theorem relayLoop_frames (verbose quiet : Bool) (reqID : Nat) (w : ResponseWriter)
    (bodyErr : Bool) (hw : ∀ n, w.writeOk n = true) (frames : List (List UInt8)) :
    (∀ f ∈ frames, IsFrame f) → ∀ (fuel n total : Nat), frames.flatten.length < fuel →
      relayLoop verbose quiet reqID w bodyErr fuel frames.flatten n total =
        (frames.flatMap (fun f => [Event.readFrame f, Event.write f true, Event.flush]) ++
          (Event.readEnd bodyErr ::
            (if bodyErr then logDebug verbose quiet (.streamReadError reqID) else [])),
         total + frames.flatten.length) := by
  induction frames with
  | nil =>
    intro _ fuel n total hfuel
    cases fuel with
    | zero => simp at hfuel
    | succ fuel => simp [relayLoop, readBytes]
  | cons f fs ih =>
    intro hfr fuel n total hfuel
    have hf : IsFrame f := hfr f (List.mem_cons_self _ _)
    have hfs : ∀ g ∈ fs, IsFrame g := fun g hg => hfr g (List.mem_cons_of_mem _ hg)
    cases fuel with
    | zero => simp at hfuel
    | succ fuel =>
      have hlen : 0 < f.length := by
        obtain ⟨content, rfl, _⟩ := hf
        simp
      have hfuel' : fs.flatten.length < fuel := by
        simp only [List.flatten_cons, List.length_append] at hfuel
        omega
      simp only [List.flatten_cons, relayLoop, readBytes_frame f fs.flatten hf, hw n, if_true,
        ih hfs fuel (n + 1) (total + f.length) hfuel', List.flatMap_cons, List.length_append]
      simp [Nat.add_assoc]

theorem readBytes_split (delim : UInt8) (rest : List UInt8) :
    ∀ line rest', readBytes delim rest = some (line, rest') →
      rest = line ++ rest' ∧ 0 < line.length := by
  induction rest with
  | nil => intro line rest' h; simp [readBytes] at h
  | cons b bs ih =>
    intro line rest' h
    by_cases hb : b = delim
    · simp only [readBytes, hb, if_true, Option.some.injEq, Prod.mk.injEq] at h
      obtain ⟨h1, h2⟩ := h
      subst h1 h2
      simp [hb]
    · simp only [readBytes, hb, if_false] at h
      cases hr : readBytes delim bs with
      | none => simp [hr] at h
      | some p =>
        obtain ⟨l, r⟩ := p
        simp only [hr, Option.map_some', Option.some.injEq, Prod.mk.injEq] at h
        obtain ⟨h1, h2⟩ := h
        subst h1 h2
        obtain ⟨h3, _⟩ := ih l r hr
        simp [h3]

/-- The loop never runs out of fuel: any two amounts of fuel above the length of what
the reader holds give the same trace and byte count. -/
theorem relayLoop_fuel (verbose quiet : Bool) (reqID : Nat) (w : ResponseWriter)
    (bodyErr : Bool) (fuel₁ : Nat) :
    ∀ (fuel₂ : Nat) (rest : List UInt8) (n total : Nat),
      rest.length < fuel₁ → rest.length < fuel₂ →
      relayLoop verbose quiet reqID w bodyErr fuel₁ rest n total =
        relayLoop verbose quiet reqID w bodyErr fuel₂ rest n total := by
  induction fuel₁ with
  | zero => intro fuel₂ rest n total h; simp at h
  | succ k ih =>
    intro fuel₂ rest n total h1 h2
    cases fuel₂ with
    | zero => simp at h2
    | succ j =>
      cases hr : readBytes 10 rest with
      | none => simp [relayLoop, hr]
      | some p =>
        obtain ⟨line, rest'⟩ := p
        obtain ⟨hsplit, hpos⟩ := readBytes_split 10 rest line rest' hr
        have hlen : rest'.length < rest.length := by
          rw [hsplit, List.length_append]
          omega
        cases hw : w.writeOk n with
        | false => simp [relayLoop, hr, hw]
        | true =>
          simp only [relayLoop, hr, hw, if_true]
          rw [ih j rest' (n + 1) (total + line.length) (by omega) (by omega)]

theorem relayEvents_logInfo (quiet : Bool) (rec : LogRecord) :
    relayEvents (logInfo quiet rec) = [] := by
  cases quiet <;> simp [logInfo, relayEvents]

theorem relayEvents_logDebug (verbose quiet : Bool) (rec : LogRecord) :
    relayEvents (logDebug verbose quiet rec) = [] := by
  cases verbose <;> cases quiet <;> simp [logDebug, relayEvents]

theorem relayEvents_append (a b : List Event) :
    relayEvents (a ++ b) = relayEvents a ++ relayEvents b := by
  induction a with
  | nil => simp [relayEvents]
  | cons e rest ih => cases e <;> simp [relayEvents, ih]

theorem callerWrites_append (a b : List Event) :
    callerWrites (a ++ b) = callerWrites a ++ callerWrites b := by
  induction a with
  | nil => simp [callerWrites]
  | cons e rest ih =>
    cases e with
    | write data ok => cases ok <;> simp [callerWrites, ih]
    | _ => simp [callerWrites, ih]

theorem callerWrites_logInfo (quiet : Bool) (rec : LogRecord) :
    callerWrites (logInfo quiet rec) = [] := by
  cases quiet <;> simp [logInfo, callerWrites]

theorem callerWrites_logDebug (verbose quiet : Bool) (rec : LogRecord) :
    callerWrites (logDebug verbose quiet rec) = [] := by
  cases verbose <;> cases quiet <;> simp [logDebug, callerWrites]

theorem relayEvents_frames (frames : List (List UInt8)) :
    relayEvents (frames.flatMap
      (fun f => [Event.readFrame f, Event.write f true, Event.flush])) =
    frames.flatMap (fun f => [Event.readFrame f, Event.write f true, Event.flush]) := by
  induction frames with
  | nil => simp [relayEvents]
  | cons f fs ih =>
    rw [List.flatMap_cons, relayEvents_append, ih]
    rfl

theorem callerWrites_frames (frames : List (List UInt8)) :
    callerWrites (frames.flatMap
      (fun f => [Event.readFrame f, Event.write f true, Event.flush])) = frames := by
  induction frames with
  | nil => simp [callerWrites]
  | cons f fs ih =>
    rw [List.flatMap_cons, callerWrites_append, ih]
    rfl

/-- The relay in streaming mode, for a body made of frames and a writer that can flush
and never fails. -/
theorem relayResponse_stream (verbose quiet : Bool) (reqID : Nat) (streamType : String)
    (w : ResponseWriter) (resp : Response) (frames : List (List UInt8))
    (hstatus : resp.StatusCode = 200) (hframes : ∀ f ∈ frames, IsFrame f)
    (hjoin : resp.Body = frames.flatten) (hflush : w.canFlush = true)
    (hw : ∀ n, w.writeOk n = true) :
    relayResponse verbose quiet reqID streamType true w resp =
      [.setHeader "Content-Type" "text/event-stream", .setHeader "Cache-Control" "no-cache",
        .setHeader "Connection" "keep-alive", .writeHeader 200] ++
      (frames.flatMap (fun f => [Event.readFrame f, Event.write f true, Event.flush]) ++
        (Event.readEnd resp.bodyErr ::
          (if resp.bodyErr then logDebug verbose quiet (.streamReadError reqID) else []))) ++
      logInfo quiet (.done reqID streamType resp.Body.length) := by
  unfold relayResponse
  simp only [hstatus, decide_True, Bool.and_self, if_true, hflush, Bool.not_true,
    Bool.false_eq_true, if_false]
  rw [hjoin, relayLoop_frames verbose quiet reqID w resp.bodyErr hw frames hframes
    (frames.flatten.length + 1) 0 0 (Nat.lt_succ_self _)]
  simp

/-- The relay in buffered mode. -/
theorem relayResponse_buffered (verbose quiet : Bool) (reqID : Nat) (streamType : String)
    (isStreaming : Bool) (w : ResponseWriter) (resp : Response)
    (hmode : ¬ (isStreaming = true ∧ resp.StatusCode = 200)) :
    relayResponse verbose quiet reqID streamType isStreaming w resp =
      copyHeaderEvents resp.Header ++
        [.writeHeader resp.StatusCode,
          .copy (ioCopy w resp.readSize resp.bodyErr (resp.Body.length + 1) resp.Body 0).1
            (ioCopy w resp.readSize resp.bodyErr (resp.Body.length + 1) resp.Body 0).2] ++
        logInfo quiet (.done reqID streamType
          (ioCopy w resp.readSize resp.bodyErr (resp.Body.length + 1)
            resp.Body 0).1.length) := by
  unfold relayResponse
  have : (isStreaming && decide (resp.StatusCode = 200)) = false := by
    cases isStreaming
    · simp
    · simp only [true_and] at hmode
      simp [hmode]
  simp [this]

theorem callerStatus_addHeaders (key : String) (values : List String) (rest : List Event) :
    callerStatus (values.map (Event.addHeader key) ++ rest) = callerStatus rest := by
  induction values with
  | nil => rfl
  | cons v vs ih => simpa [callerStatus] using ih

theorem callerStatus_copyHeaderEvents (h : Header) (rest : List Event) :
    callerStatus (copyHeaderEvents h ++ rest) = callerStatus rest := by
  induction h with
  | nil => rfl
  | cons p ps ih =>
    obtain ⟨key, values⟩ := p
    simp only [copyHeaderEvents, List.append_assoc]
    rw [callerStatus_addHeaders, ih]

theorem relayEvents_copyHeaderEvents (h : Header) : relayEvents (copyHeaderEvents h) = [] := by
  induction h with
  | nil => rfl
  | cons p ps ih =>
    obtain ⟨key, values⟩ := p
    have : relayEvents (values.map (Event.addHeader key)) = [] := by
      induction values with
      | nil => rfl
      | cons v vs ihv => simpa [relayEvents] using ihv
    simp [copyHeaderEvents, relayEvents_append, this, ih]

theorem headerSets_append (a b : List Event) :
    headerSets (a ++ b) = headerSets a ++ headerSets b := by
  induction a with
  | nil => simp [headerSets]
  | cons e rest ih => cases e <;> simp [headerSets, ih]

theorem headerSets_logInfo (quiet : Bool) (rec : LogRecord) :
    headerSets (logInfo quiet rec) = [] := by
  cases quiet <;> simp [logInfo, headerSets]

theorem headerSets_copyHeaderEvents (h : Header) : headerSets (copyHeaderEvents h) = [] := by
  induction h with
  | nil => rfl
  | cons p ps ih =>
    obtain ⟨key, values⟩ := p
    have : headerSets (values.map (Event.addHeader key)) = [] := by
      induction values with
      | nil => rfl
      | cons v vs ihv => simpa [headerSets] using ihv
    simp [copyHeaderEvents, headerSets_append, this, ih]

theorem callerBody_append (a b : List Event) :
    callerBody (a ++ b) = callerBody a ++ callerBody b := by
  induction a with
  | nil => simp [callerBody]
  | cons e rest ih =>
    cases e with
    | write data ok => cases ok <;> simp [callerBody, ih]
    | copy data ok => cases ok <;> simp [callerBody, ih]
    | _ => simp [callerBody, ih]

theorem callerBody_logInfo (quiet : Bool) (rec : LogRecord) :
    callerBody (logInfo quiet rec) = [] := by
  cases quiet <;> simp [logInfo, callerBody]

theorem callerBody_copyHeaderEvents (h : Header) : callerBody (copyHeaderEvents h) = [] := by
  induction h with
  | nil => rfl
  | cons p ps ih =>
    obtain ⟨key, values⟩ := p
    have : callerBody (values.map (Event.addHeader key)) = [] := by
      induction values with
      | nil => rfl
      | cons v vs ihv => simpa [callerBody] using ihv
    simp [copyHeaderEvents, callerBody_append, this, ih]

theorem callerHeader_append (a b : List Event) :
    ∀ hd, callerHeader hd (a ++ b) = callerHeader (callerHeader hd a) b := by
  induction a with
  | nil => intro hd; rfl
  | cons e rest ih => intro hd; cases e <;> simp [callerHeader, ih]

theorem callerHeader_logInfo (quiet : Bool) (rec : LogRecord) (hd : Header) :
    callerHeader hd (logInfo quiet rec) = hd := by
  cases quiet <;> simp [logInfo, callerHeader]

theorem values_callerHeader_addHeaders (key k : String) (values : List String) :
    ∀ hd : Header, (callerHeader hd (values.map (Event.addHeader key))).Values k =
      if canonicalMIMEHeaderKey k = canonicalMIMEHeaderKey key then hd.Values k ++ values
      else hd.Values k := by
  induction values with
  | nil => intro hd; simp [callerHeader]
  | cons v vs ih =>
    intro hd
    simp only [List.map_cons, callerHeader]
    rw [ih, values_add]
    split <;> simp

/-- Copying the upstream header map, whose keys are canonical and distinct, adds to
each key of the caller's map the upstream values of that key, in order. -/
theorem values_callerHeader_copy (k : String) (up : Header) :
    (∀ key ∈ keysOf up, canonicalMIMEHeaderKey key = key) → (keysOf up).Nodup →
    ∀ hd : Header, (callerHeader hd (copyHeaderEvents up)).Values k =
      hd.Values k ++ up.Values k := by
  induction up with
  | nil => intro _ _ hd; simp [copyHeaderEvents, callerHeader, values_nil]
  | cons p ps ih =>
    intro hcanon hnodup hd
    obtain ⟨key, values⟩ := p
    have hkey : canonicalMIMEHeaderKey key = key := hcanon key (by simp [keysOf])
    have hps : ∀ x ∈ keysOf ps, canonicalMIMEHeaderKey x = x :=
      fun x hx => hcanon x (by simp only [keysOf, List.map_cons, List.mem_cons]; exact Or.inr hx)
    have hnd : (keysOf ps).Nodup := by
      simp only [keysOf, List.map_cons, List.nodup_cons] at hnodup
      exact hnodup.2
    have hnot : key ∉ keysOf ps := by
      simp only [keysOf, List.map_cons, List.nodup_cons] at hnodup
      exact hnodup.1
    simp only [copyHeaderEvents]
    rw [callerHeader_append, ih hps hnd, values_callerHeader_addHeaders, hkey]
    by_cases hk : canonicalMIMEHeaderKey k = key
    · have hnone : mapGet key ps = none := by
        have := (mem_keysOf_iff key ps).not.mp hnot
        cases hg : mapGet key ps with
        | none => rfl
        | some v => simp [hg] at this
      simp [hk, Header.Values, mapGet, hnone]
    · have hk' : ¬ key = canonicalMIMEHeaderKey k := fun h => hk h.symm
      simp only [hk, if_false]
      congr 1
      simp only [Header.Values, mapGet]
      rw [if_neg hk]

/-- The status the caller receives once the upstream has answered, in either mode. -/
theorem callerStatus_relayResponse (verbose quiet : Bool) (reqID : Nat)
    (streamType : String) (isStreaming : Bool) (w : ResponseWriter) (resp : Response)
    (rest : List Event) :
    callerStatus (relayResponse verbose quiet reqID streamType isStreaming w resp ++ rest) =
      some resp.StatusCode := by
  by_cases hmode : isStreaming = true ∧ resp.StatusCode = 200
  · unfold relayResponse
    simp only [hmode.1, hmode.2, decide_True, Bool.and_self, if_true]
    split <;> simp [callerStatus]
  · rw [relayResponse_buffered _ _ _ _ _ _ _ hmode]
    simp only [List.append_assoc]
    rw [callerStatus_copyHeaderEvents]
    simp [callerStatus]

theorem callerStatus_logInfo_append (quiet : Bool) (rec : LogRecord) (rest : List Event) :
    callerStatus (logInfo quiet rec ++ rest) = callerStatus rest :=
  callerStatus_aside _ _ (isAside_logInfo quiet rec)

theorem callerStatus_logDebug_append (verbose quiet : Bool) (rec : LogRecord)
    (rest : List Event) :
    callerStatus (logDebug verbose quiet rec ++ rest) = callerStatus rest :=
  callerStatus_aside _ _ (isAside_logDebug verbose quiet rec)

theorem upstreamRequests_nil_of_body_error (cfg : Config) (verbose quiet : Bool) (env : Env)
    (st : ProxyState) (w : ResponseWriter) (r : Request) (hbody : r.Body = none) :
    callerStatus (handleProxy cfg verbose quiet env st w r).1 = some 400 ∧
    upstreamRequests (handleProxy cfg verbose quiet env st w r).1 = [] := by
  unfold handleProxy
  simp only [hbody]
  constructor
  · rw [callerStatus_logDebug_append]; rfl
  · simp [upstreamRequests_append, upstreamRequests_logDebug, upstreamRequests]

theorem handleProxy_of_token_error (cfg : Config) (verbose quiet : Bool) (env : Env)
    (st : ProxyState) (w : ResponseWriter) (r : Request) (inbound : Payload)
    (err : TokenError) (hbody : r.Body = some inbound)
    (htok : GetToken env.fs cfg = .error err) :
    callerStatus (handleProxy cfg verbose quiet env st w r).1 = some 500 ∧
    upstreamRequests (handleProxy cfg verbose quiet env st w r).1 = [] := by
  unfold handleProxy
  simp only [hbody, htok]
  constructor
  · simp only [List.append_assoc]
    rw [callerStatus_logDebug_append]
    split
    · rw [callerStatus_logInfo_append, callerStatus_logInfo_append,
        callerStatus_logDebug_append, callerStatus_logInfo_append]
      rfl
    · rw [List.nil_append, callerStatus_logInfo_append,
        callerStatus_logDebug_append, callerStatus_logInfo_append]
      rfl
  · split <;>
      simp [upstreamRequests_append, upstreamRequests_logDebug, upstreamRequests_logInfo,
        upstreamRequests]

theorem handleProxy_of_request_error (cfg : Config) (verbose quiet : Bool) (env : Env)
    (st : ProxyState) (w : ResponseWriter) (r : Request) (inbound : Payload)
    (token authType : String) (hbody : r.Body = some inbound)
    (htok : GetToken env.fs cfg = .ok (token, authType))
    (hreq : env.newRequestOk r.Method (cfg.Target ++ r.Path) = false) :
    callerStatus (handleProxy cfg verbose quiet env st w r).1 = some 500 ∧
    upstreamRequests (handleProxy cfg verbose quiet env st w r).1 = [] := by
  unfold handleProxy
  simp only [hbody, htok, hreq, Bool.not_false, if_true]
  constructor
  · simp only [List.append_assoc]
    rw [callerStatus_logDebug_append]
    split
    · rw [callerStatus_logInfo_append, callerStatus_logInfo_append,
        callerStatus_logDebug_append, callerStatus_logDebug_append]
      rfl
    · rw [List.nil_append, callerStatus_logInfo_append,
        callerStatus_logDebug_append, callerStatus_logDebug_append]
      rfl
  · split <;>
      simp [upstreamRequests_append, upstreamRequests_logDebug, upstreamRequests_logInfo,
        upstreamRequests]

theorem handleProxy_of_transport_error (cfg : Config) (verbose quiet : Bool) (env : Env)
    (st : ProxyState) (w : ResponseWriter) (r : Request) (inbound : Payload)
    (token authType err : String) (hbody : r.Body = some inbound)
    (htok : GetToken env.fs cfg = .ok (token, authType))
    (hreq : env.newRequestOk r.Method (cfg.Target ++ r.Path) = true)
    (hresp : env.roundTrip ⟨r.Method, cfg.Target ++ r.Path,
      upstreamHeader cfg token authType, (sanitizeBody inbound).body⟩ = .error err) :
    callerStatus (handleProxy cfg verbose quiet env st w r).1 = some 502 := by
  unfold handleProxy
  simp only [hbody, htok, hreq, hresp, Bool.not_true, Bool.false_eq_true, if_false]
  simp only [List.append_assoc]
  rw [callerStatus_logDebug_append]
  split
  · rw [callerStatus_logInfo_append, callerStatus_logInfo_append,
      callerStatus_logDebug_append, callerStatus_logDebug_append]
    show callerStatus (logInfo quiet _ ++ _) = _
    rw [callerStatus_logInfo_append]
    rfl
  · rw [List.nil_append, callerStatus_logInfo_append,
      callerStatus_logDebug_append, callerStatus_logDebug_append]
    show callerStatus (logInfo quiet _ ++ _) = _
    rw [callerStatus_logInfo_append]
    rfl

/-- The map `handleHealth` encodes, entry by entry. -/
theorem handleHealth_body (cfg : Config) (env : Env) :
    (handleHealth cfg env).body =
      .obj [("auth_type", .str cfg.AuthType), ("cf_access", .bool cfg.CfAccess),
        ("has_token", .bool (match GetToken env.fs cfg with
          | .ok (token, _) => decide (token ≠ "")
          | .error _ => false)),
        ("status", .str "ok"), ("target", .str cfg.Target)] := by
  rfl

/-- The header calls of lines 102 to 115 build the map the contract describes. -/
theorem upstreamHeader_eq_expected (cfg : Config) (token authType : String) :
    upstreamHeader cfg token authType = expectedUpstreamHeader cfg token authType := by
  unfold upstreamHeader expectedUpstreamHeader
  by_cases hcf : cfg.CfAccess = true
  · by_cases hboth : cfg.CfClientID ≠ "" ∧ cfg.CfClientSecret ≠ ""
    · simp only [hcf, hboth, if_true]
      rfl
    · simp only [hcf, hboth, if_true, if_false]
      rfl
  · by_cases hkind : authType = "apikey"
    · simp only [hcf, hkind, if_true, if_false]
      rfl
    · simp only [hcf, hkind, if_false]
      rfl

/-! ## Log lines -/

theorem logRecords_append (a b : List Event) :
    logRecords (a ++ b) = logRecords a ++ logRecords b := by
  induction a with
  | nil => simp [logRecords]
  | cons e rest ih => cases e <;> simp [logRecords, ih]

theorem logInfo_quiet (rec : LogRecord) : logInfo true rec = [] := rfl

theorem logDebug_quiet (verbose : Bool) (rec : LogRecord) : logDebug verbose true rec = [] := by
  cases verbose <;> rfl

theorem logRecords_relayLoop_quiet (verbose : Bool) (reqID : Nat) (w : ResponseWriter)
    (bodyErr : Bool) (fuel : Nat) :
    ∀ (rest : List UInt8) (n total : Nat),
      logRecords (relayLoop verbose true reqID w bodyErr fuel rest n total).1 = [] := by
  induction fuel with
  | zero => intro rest n total; simp [relayLoop, logRecords]
  | succ fuel ih =>
    intro rest n total
    cases hr : readBytes 10 rest with
    | none => cases bodyErr <;> simp [relayLoop, hr, logRecords, logDebug_quiet]
    | some p =>
      obtain ⟨line, rest'⟩ := p
      cases hw : w.writeOk n <;>
        simp [relayLoop, hr, hw, logRecords, logDebug_quiet, ih]

theorem logRecords_copyHeaderEvents (h : Header) : logRecords (copyHeaderEvents h) = [] := by
  induction h with
  | nil => rfl
  | cons p ps ih =>
    obtain ⟨key, values⟩ := p
    have : logRecords (values.map (Event.addHeader key)) = [] := by
      induction values with
      | nil => rfl
      | cons v vs ihv => simpa [logRecords] using ihv
    simp [copyHeaderEvents, logRecords_append, this, ih]

theorem logRecords_relayResponse_quiet (verbose : Bool) (reqID : Nat) (streamType : String)
    (isStreaming : Bool) (w : ResponseWriter) (resp : Response) :
    logRecords (relayResponse verbose true reqID streamType isStreaming w resp) = [] := by
  unfold relayResponse
  split
  · split <;>
      simp [logRecords_append, logRecords, logInfo_quiet, logRecords_relayLoop_quiet]
  · simp [logRecords_append, logRecords, logInfo_quiet, logRecords_copyHeaderEvents]

/-- When the writes of the first frames succeed and the write of the next frame fails,
the loop stops there: it has read nothing of what follows that frame, and it neither
writes nor flushes again. -/
theorem relayLoop_write_fails (verbose quiet : Bool) (reqID : Nat) (w : ResponseWriter)
    (bodyErr : Bool) (f rest : List UInt8) (hf : IsFrame f) (frames : List (List UInt8)) :
    (∀ g ∈ frames, IsFrame g) → ∀ (fuel n total : Nat),
      (∀ i, i < frames.length → w.writeOk (n + i) = true) →
      w.writeOk (n + frames.length) = false →
      (frames.flatten ++ (f ++ rest)).length < fuel →
      relayLoop verbose quiet reqID w bodyErr fuel (frames.flatten ++ (f ++ rest)) n total =
        (frames.flatMap (fun g => [Event.readFrame g, Event.write g true, Event.flush]) ++
          (Event.readFrame f :: Event.write f false ::
            logDebug verbose quiet (.streamWriteError reqID)),
         total + frames.flatten.length + f.length) := by
  induction frames with
  | nil =>
    intro _ fuel n total _ hfail hfuel
    cases fuel with
    | zero => simp at hfuel
    | succ fuel =>
      have hfail' : w.writeOk n = false := by simpa using hfail
      simp [relayLoop, readBytes_frame f rest hf, hfail']
  | cons g gs ih =>
    intro hfr fuel n total hok hfail hfuel
    have hg : IsFrame g := hfr g (List.mem_cons_self _ _)
    have hgs : ∀ x ∈ gs, IsFrame x := fun x hx => hfr x (List.mem_cons_of_mem _ hx)
    cases fuel with
    | zero => simp at hfuel
    | succ fuel =>
      have hlen : 0 < g.length := by
        obtain ⟨content, rfl, _⟩ := hg
        simp
      have hfuel' : (gs.flatten ++ (f ++ rest)).length < fuel := by
        simp only [List.flatten_cons, List.length_append, List.append_assoc] at hfuel ⊢
        omega
      have hn : w.writeOk n = true := by
        have := hok 0 (by simp)
        simpa using this
      have hok' : ∀ i, i < gs.length → w.writeOk (n + 1 + i) = true := by
        intro i hi
        have := hok (i + 1) (by simp only [List.length_cons]; omega)
        rw [show n + 1 + i = n + (i + 1) by omega]
        exact this
      have hfail'' : w.writeOk (n + 1 + gs.length) = false := by
        rw [show n + 1 + gs.length = n + (g :: gs).length by
          simp only [List.length_cons]; omega]
        exact hfail
      have hrec := ih hgs fuel (n + 1) (total + g.length) hok' hfail'' hfuel'
      simp only [List.flatten_cons, List.append_assoc, relayLoop,
        readBytes_frame g (gs.flatten ++ (f ++ rest)) hg, hn, if_true, hrec,
        List.flatMap_cons, List.length_append]
      simp [Nat.add_assoc]

/-! ## The bytes a stream delivers -/

theorem readBytes_isSome_iff (rest : List UInt8) :
    (readBytes 10 rest).isSome = true ↔ (10 : UInt8) ∈ rest := by
  induction rest with
  | nil => simp [readBytes]
  | cons b bs ih =>
    by_cases hb : b = 10
    · simp [readBytes, hb]
    · have hb' : ¬ (10 : UInt8) = b := fun h => hb h.symm
      simp only [readBytes, hb, if_false, Option.isSome_map', List.mem_cons, hb', false_or]
      exact ih

theorem uptoLastNewline_of_readBytes_none (rest : List UInt8)
    (h : readBytes 10 rest = none) : uptoLastNewline rest = [] := by
  have hno : (10 : UInt8) ∉ rest := by
    intro hmem
    have := (readBytes_isSome_iff rest).mpr hmem
    simp [h] at this
  cases rest with
  | nil => rfl
  | cons b bs =>
    have hb : ¬ b = 10 := fun hb => hno (hb ▸ List.mem_cons_self _ _)
    have hbs : (10 : UInt8) ∉ bs := fun hm => hno (List.mem_cons_of_mem _ hm)
    simp [uptoLastNewline, hb, hbs]

theorem uptoLastNewline_of_readBytes_some (rest : List UInt8) :
    ∀ line rest', readBytes 10 rest = some (line, rest') →
      uptoLastNewline rest = line ++ uptoLastNewline rest' := by
  induction rest with
  | nil => intro line rest' h; simp [readBytes] at h
  | cons b bs ih =>
    intro line rest' h
    by_cases hb : b = 10
    · simp only [readBytes, hb, if_true, Option.some.injEq, Prod.mk.injEq] at h
      obtain ⟨h1, h2⟩ := h
      subst h1 h2
      simp [uptoLastNewline, hb]
    · simp only [readBytes, hb, if_false] at h
      cases hr : readBytes 10 bs with
      | none => simp [hr] at h
      | some p =>
        obtain ⟨l, r⟩ := p
        simp only [hr, Option.map_some', Option.some.injEq, Prod.mk.injEq] at h
        obtain ⟨h1, h2⟩ := h
        subst h1 h2
        have hmem : (10 : UInt8) ∈ bs := (readBytes_isSome_iff bs).mp (by simp [hr])
        simp [uptoLastNewline, hmem, ih l r hr]

/-- The reference notion is a truncation: the body is what `uptoLastNewline` keeps
followed by bytes that hold no newline, and what it keeps ends with a newline. -/
theorem uptoLastNewline_spec (body : List UInt8) :
    ∃ tail, body = uptoLastNewline body ++ tail ∧ (10 : UInt8) ∉ tail ∧
      (uptoLastNewline body = [] ∨ (uptoLastNewline body).getLast? = some 10) := by
  induction body with
  | nil => exact ⟨[], rfl, by simp, Or.inl rfl⟩
  | cons b bs ih =>
    obtain ⟨tail, h1, h2, h3⟩ := ih
    by_cases hc : b = 10 ∨ (10 : UInt8) ∈ bs
    · refine ⟨tail, ?_, h2, Or.inr ?_⟩
      · simp only [uptoLastNewline, hc, if_true, List.cons_append]
        rw [← h1]
      · simp only [uptoLastNewline, hc, if_true]
        rcases h3 with h3 | h3
        · have hbs : (10 : UInt8) ∉ bs := by
            rw [h1, h3]
            simpa using h2
          have hb : b = 10 := by
            rcases hc with hc | hc
            · exact hc
            · exact absurd hc hbs
          simp [h3, hb]
        · cases hu : uptoLastNewline bs with
          | nil => simp [hu] at h3
          | cons x xs =>
            rw [hu] at h3
            simpa [List.getLast?_cons_cons] using h3
    · refine ⟨b :: bs, by simp [uptoLastNewline, hc], ?_, Or.inl (by simp [uptoLastNewline, hc])⟩
      intro hmem
      rcases List.mem_cons.mp hmem with h | h
      · exact hc (Or.inl h.symm)
      · exact hc (Or.inr h)

theorem callerBody_logDebug (verbose quiet : Bool) (rec : LogRecord) :
    callerBody (logDebug verbose quiet rec) = [] := by
  cases verbose <;> cases quiet <;> simp [logDebug, callerBody]

/-- With every write succeeding, the loop delivers the body up to its last newline and
counts exactly those bytes. -/
theorem relayLoop_delivers (verbose quiet : Bool) (reqID : Nat) (w : ResponseWriter)
    (bodyErr : Bool) (hw : ∀ n, w.writeOk n = true) (fuel : Nat) :
    ∀ (rest : List UInt8) (n total : Nat), rest.length < fuel →
      callerBody (relayLoop verbose quiet reqID w bodyErr fuel rest n total).1 =
        uptoLastNewline rest ∧
      (relayLoop verbose quiet reqID w bodyErr fuel rest n total).2 =
        total + (uptoLastNewline rest).length := by
  induction fuel with
  | zero => intro rest n total h; simp at h
  | succ k ih =>
    intro rest n total hfuel
    cases hr : readBytes 10 rest with
    | none =>
      rw [uptoLastNewline_of_readBytes_none rest hr]
      cases bodyErr <;> simp [relayLoop, hr, callerBody, callerBody_logDebug]
    | some p =>
      obtain ⟨line, rest'⟩ := p
      obtain ⟨hsplit, hpos⟩ := readBytes_split 10 rest line rest' hr
      have hlen : rest'.length < k := by
        have : rest.length = line.length + rest'.length := by
          rw [hsplit, List.length_append]
        omega
      obtain ⟨h1, h2⟩ := ih rest' (n + 1) (total + line.length) hlen
      rw [uptoLastNewline_of_readBytes_some rest line rest' hr]
      simp only [relayLoop, hr, hw n, if_true, callerBody, h1, h2, List.length_append]
      exact ⟨trivial, by omega⟩

theorem doneBytes_append (a b : List Event) :
    doneBytes (a ++ b) = doneBytes a ++ doneBytes b := by
  induction a with
  | nil => simp [doneBytes]
  | cons e rest ih =>
    cases e with
    | log debug rec => cases rec <;> simp [doneBytes, ih]
    | _ => simp [doneBytes, ih]

theorem doneBytes_relayLoop (verbose quiet : Bool) (reqID : Nat) (w : ResponseWriter)
    (bodyErr : Bool) (fuel : Nat) :
    ∀ (rest : List UInt8) (n total : Nat),
      doneBytes (relayLoop verbose quiet reqID w bodyErr fuel rest n total).1 = [] := by
  induction fuel with
  | zero => intro rest n total; simp [relayLoop, doneBytes]
  | succ fuel ih =>
    intro rest n total
    cases hr : readBytes 10 rest with
    | none =>
      cases bodyErr <;> cases verbose <;> cases quiet <;>
        simp [relayLoop, hr, doneBytes, logDebug]
    | some p =>
      obtain ⟨line, rest'⟩ := p
      cases hw : w.writeOk n <;> cases verbose <;> cases quiet <;>
        simp [relayLoop, hr, hw, doneBytes, logDebug, ih]

/-- The trace of `handleProxy` when the upstream answers, written out. -/
theorem handleProxy_trace_of_response (cfg : Config) (verbose quiet : Bool) (env : Env)
    (st : ProxyState) (w : ResponseWriter) (r : Request) (inbound : Payload)
    (token authType : String) (resp : Response) (hbody : r.Body = some inbound)
    (htok : GetToken env.fs cfg = .ok (token, authType))
    (hreq : env.newRequestOk r.Method (cfg.Target ++ r.Path) = true)
    (hresp : env.roundTrip ⟨r.Method, cfg.Target ++ r.Path,
      upstreamHeader cfg token authType, (sanitizeBody inbound).body⟩ = .ok resp) :
    (handleProxy cfg verbose quiet env st w r).1 =
      logDebug verbose quiet (.request (st.requestCount + 1) r.Method r.Path) ++
      ((if (decide ((sanitizeBody inbound).model ≠ "") &&
          decide ((sanitizeBody inbound).model ≠ st.lastModel)) = true
        then logInfo quiet (.model (sanitizeBody inbound).model) else []) ++
      (logInfo quiet (.start (st.requestCount + 1)
          (if (sanitizeBody inbound).isStreaming then "stream" else "sync")) ++
      (logDebug verbose quiet (.requestInfo (st.requestCount + 1)
          (sanitizeBody inbound).model (sanitizeBody inbound).isStreaming) ++
      (logDebug verbose quiet (.proxyTo (st.requestCount + 1) (cfg.Target ++ r.Path)) ++
      ([.doRequest ⟨r.Method, cfg.Target ++ r.Path, upstreamHeader cfg token authType,
        (sanitizeBody inbound).body⟩] ++
      (logDebug verbose quiet (.response (st.requestCount + 1) resp.StatusCode) ++
      (relayResponse verbose quiet (st.requestCount + 1)
          (if (sanitizeBody inbound).isStreaming then "stream" else "sync")
          (sanitizeBody inbound).isStreaming w resp ++
        [.closeUpstreamBody, .closeRequestBody]))))))) := by
  unfold handleProxy
  simp only [hbody, htok, hreq, hresp, Bool.not_true, Bool.false_eq_true, if_false,
    List.append_assoc]

/-- The `DONE` lines of a request the upstream answered are those of the relay. -/
theorem doneBytes_handleProxy (cfg : Config) (verbose quiet : Bool) (env : Env)
    (st : ProxyState) (w : ResponseWriter) (r : Request) (inbound : Payload)
    (token authType : String) (resp : Response) (hbody : r.Body = some inbound)
    (htok : GetToken env.fs cfg = .ok (token, authType))
    (hreq : env.newRequestOk r.Method (cfg.Target ++ r.Path) = true)
    (hresp : env.roundTrip ⟨r.Method, cfg.Target ++ r.Path,
      upstreamHeader cfg token authType, (sanitizeBody inbound).body⟩ = .ok resp) :
    doneBytes (handleProxy cfg verbose quiet env st w r).1 =
      doneBytes (relayResponse verbose quiet (st.requestCount + 1)
        (if (sanitizeBody inbound).isStreaming then "stream" else "sync")
        (sanitizeBody inbound).isStreaming w resp) := by
  rw [handleProxy_trace_of_response cfg verbose quiet env st w r inbound token authType resp
    hbody htok hreq hresp]
  cases verbose <;> cases quiet <;>
    split <;> simp [doneBytes_append, doneBytes, logInfo, logDebug]

/-! ## Model switches -/

theorem modelLines_append (a b : List Event) :
    modelLines (a ++ b) = modelLines a ++ modelLines b := by
  induction a with
  | nil => simp [modelLines]
  | cons e rest ih =>
    cases e with
    | log debug rec => cases rec <;> simp [modelLines, ih]
    | _ => simp [modelLines, ih]

theorem modelLines_relayLoop (verbose quiet : Bool) (reqID : Nat) (w : ResponseWriter)
    (bodyErr : Bool) (fuel : Nat) :
    ∀ (rest : List UInt8) (n total : Nat),
      modelLines (relayLoop verbose quiet reqID w bodyErr fuel rest n total).1 = [] := by
  induction fuel with
  | zero => intro rest n total; simp [relayLoop, modelLines]
  | succ fuel ih =>
    intro rest n total
    cases hr : readBytes 10 rest with
    | none =>
      cases bodyErr <;> cases verbose <;> cases quiet <;>
        simp [relayLoop, hr, modelLines, logDebug]
    | some p =>
      obtain ⟨line, rest'⟩ := p
      cases hw : w.writeOk n <;> cases verbose <;> cases quiet <;>
        simp [relayLoop, hr, hw, modelLines, logDebug, ih]

theorem modelLines_copyHeaderEvents (h : Header) : modelLines (copyHeaderEvents h) = [] := by
  induction h with
  | nil => rfl
  | cons p ps ih =>
    obtain ⟨key, values⟩ := p
    have : modelLines (values.map (Event.addHeader key)) = [] := by
      induction values with
      | nil => rfl
      | cons v vs ihv => simpa [modelLines] using ihv
    simp [copyHeaderEvents, modelLines_append, this, ih]

theorem modelLines_relayResponse (verbose quiet : Bool) (reqID : Nat) (streamType : String)
    (isStreaming : Bool) (w : ResponseWriter) (resp : Response) :
    modelLines (relayResponse verbose quiet reqID streamType isStreaming w resp) = [] := by
  unfold relayResponse
  split
  · split <;> cases quiet <;>
      simp [modelLines_append, modelLines, logInfo, modelLines_relayLoop]
  · cases quiet <;>
      simp [modelLines_append, modelLines, logInfo, modelLines_copyHeaderEvents]

/-- The `MODEL` lines of one request with `quiet` off: one line when the request names
a model other than `lastModel`, none otherwise. -/
theorem modelLines_handleProxy (cfg : Config) (verbose : Bool) (env : Env)
    (st : ProxyState) (w : ResponseWriter) (r : Request) :
    modelLines (handleProxy cfg verbose false env st w r).1 =
      if requestModel r ≠ "" ∧ requestModel r ≠ st.lastModel then [requestModel r]
      else [] := by
  unfold handleProxy requestModel
  cases hb : r.Body with
  | none => cases verbose <;> simp [modelLines, logDebug]
  | some inbound =>
    simp only
    by_cases hsw : (sanitizeBody inbound).model ≠ "" ∧
        (sanitizeBody inbound).model ≠ st.lastModel
    · have hd : (decide ((sanitizeBody inbound).model ≠ "") &&
          decide ((sanitizeBody inbound).model ≠ st.lastModel)) = true := by
        simp [hsw.1, hsw.2]
      rw [if_pos hsw]
      simp only [hd, if_true]
      cases GetToken env.fs cfg with
      | error err =>
        cases verbose <;> simp [modelLines, modelLines_append, logInfo, logDebug]
      | ok p =>
        obtain ⟨token, authType⟩ := p
        simp only
        split
        · cases verbose <;> simp [modelLines, modelLines_append, logInfo, logDebug]
        · split <;> cases verbose <;>
            simp [modelLines, modelLines_append, logInfo, logDebug, modelLines_relayResponse]
    · have hd : (decide ((sanitizeBody inbound).model ≠ "") &&
          decide ((sanitizeBody inbound).model ≠ st.lastModel)) = false := by
        by_cases h1 : (sanitizeBody inbound).model = ""
        · simp [h1]
        · have h2 : (sanitizeBody inbound).model = st.lastModel := by
            by_contra h2
            exact hsw ⟨h1, h2⟩
          simp [h2]
      rw [if_neg hsw]
      simp only [hd, Bool.false_eq_true, if_false]
      cases GetToken env.fs cfg with
      | error err =>
        cases verbose <;> simp [modelLines, modelLines_append, logInfo, logDebug]
      | ok p =>
        obtain ⟨token, authType⟩ := p
        simp only
        split
        · cases verbose <;> simp [modelLines, modelLines_append, logInfo, logDebug]
        · split <;> cases verbose <;>
            simp [modelLines, modelLines_append, logInfo, logDebug, modelLines_relayResponse]

/-- The variable `lastModel` after one request: the model the request names, or the
former value when it names none. -/
theorem lastModel_handleProxy (cfg : Config) (verbose quiet : Bool) (env : Env)
    (st : ProxyState) (w : ResponseWriter) (r : Request) :
    (handleProxy cfg verbose quiet env st w r).2.lastModel =
      if requestModel r ≠ "" then requestModel r else st.lastModel := by
  unfold handleProxy requestModel
  cases hb : r.Body with
  | none => simp
  | some inbound =>
    simp only
    have hst : (if (decide ((sanitizeBody inbound).model ≠ "") &&
          decide ((sanitizeBody inbound).model ≠ st.lastModel)) = true
        then ({ lastModel := (sanitizeBody inbound).model,
                requestCount := st.requestCount + 1 } : ProxyState)
        else { lastModel := st.lastModel, requestCount := st.requestCount + 1 }).lastModel =
        if (sanitizeBody inbound).model ≠ "" then (sanitizeBody inbound).model
        else st.lastModel := by
      by_cases h1 : (sanitizeBody inbound).model = ""
      · simp [h1]
      · by_cases h2 : (sanitizeBody inbound).model = st.lastModel
        · simp [h1, h2]
        · simp [h1, h2]
    cases GetToken env.fs cfg with
    | error err => exact hst
    | ok p =>
      obtain ⟨token, authType⟩ := p
      simp only
      split
      · exact hst
      · split <;> exact hst

/-! ## Start-up -/

/-- Whether `CreateHTTPClient` fails, and with which error, does not depend on the
skip-verification flag. -/
theorem CreateHTTPClient_error_iff (host : Host) (cfg : Config) (err : ClientError) :
    CreateHTTPClient host { cfg with InsecureSkip := true } = .error err ↔
      CreateHTTPClient host { cfg with InsecureSkip := false } = .error err := by
  unfold CreateHTTPClient
  by_cases hp : cfg.Proxy ≠ "" ∧ host.urlOk cfg.Proxy = false
  · rw [if_pos hp, if_pos hp]
  · rw [if_neg hp, if_neg hp]
    by_cases hc : cfg.CACert = ""
    · simp [hc]
    · cases host.fs cfg.CACert with
      | none => simp [hc]
      | some caCert =>
        by_cases hpem : host.pemOk caCert.raw = false
        · simp [hc, hpem]
        · simp [hc, hpem]

/-! ## The buffered copy -/

/-- What `io.Copy` delivers is a prefix of the body. -/
theorem ioCopy_prefix (w : ResponseWriter) (readSize : Nat → Nat) (bodyErr : Bool)
    (fuel : Nat) :
    ∀ (rest : List UInt8) (n : Nat), (ioCopy w readSize bodyErr fuel rest n).1 <+: rest := by
  induction fuel with
  | zero => intro rest n; simp [ioCopy]
  | succ fuel ih =>
    intro rest n
    cases rest with
    | nil => simp [ioCopy]
    | cons b rest =>
      simp only [ioCopy]
      split
      · obtain ⟨t, ht⟩ := ih ((b :: rest).drop (readSize n + 1)) (n + 1)
        exact ⟨t, by rw [List.append_assoc, ht, List.take_append_drop]⟩
      · exact List.nil_prefix

/-- With every write succeeding, `io.Copy` delivers the whole body, and returns no error
unless the body ends in a read error. -/
theorem ioCopy_all_ok (w : ResponseWriter) (readSize : Nat → Nat) (bodyErr : Bool)
    (hw : ∀ n, w.writeOk n = true) (fuel : Nat) :
    ∀ (rest : List UInt8) (n : Nat), rest.length < fuel →
      ioCopy w readSize bodyErr fuel rest n = (rest, !bodyErr) := by
  induction fuel with
  | zero => intro rest n h; omega
  | succ fuel ih =>
    intro rest n h
    cases rest with
    | nil => simp [ioCopy]
    | cons b rest =>
      have hlen : ((b :: rest).drop (readSize n + 1)).length < fuel := by
        simp only [List.length_drop, List.length_cons] at h ⊢
        omega
      simp only [ioCopy, hw, if_true, ih _ (n + 1) hlen, List.take_append_drop]

/-- A copy that returns no error has delivered the whole body, which ended without a
read error. -/
theorem ioCopy_ok (w : ResponseWriter) (readSize : Nat → Nat) (bodyErr : Bool)
    (fuel : Nat) :
    ∀ (rest : List UInt8) (n : Nat), rest.length < fuel →
      (ioCopy w readSize bodyErr fuel rest n).2 = true →
      (ioCopy w readSize bodyErr fuel rest n).1 = rest ∧ bodyErr = false := by
  induction fuel with
  | zero => intro rest n h; omega
  | succ fuel ih =>
    intro rest n h hok
    cases rest with
    | nil =>
      simp only [ioCopy, Bool.not_eq_true'] at hok
      exact ⟨by simp [ioCopy], hok⟩
    | cons b rest =>
      have hlen : ((b :: rest).drop (readSize n + 1)).length < fuel := by
        simp only [List.length_drop, List.length_cons] at h ⊢
        omega
      simp only [ioCopy] at hok ⊢
      cases hwn : w.writeOk n with
      | false => simp [hwn] at hok
      | true =>
        simp only [hwn, if_true] at hok ⊢
        obtain ⟨h1, h2⟩ := ih _ (n + 1) hlen hok
        exact ⟨by rw [h1, List.take_append_drop], h2⟩

/-- Fuel above the length of what the body still holds makes no difference to
`io.Copy`. -/
theorem ioCopy_fuel (w : ResponseWriter) (readSize : Nat → Nat) (bodyErr : Bool)
    (fuel₁ : Nat) :
    ∀ (fuel₂ : Nat) (rest : List UInt8) (n : Nat), rest.length < fuel₁ →
      rest.length < fuel₂ →
      ioCopy w readSize bodyErr fuel₁ rest n = ioCopy w readSize bodyErr fuel₂ rest n := by
  induction fuel₁ with
  | zero => intro fuel₂ rest n h; omega
  | succ fuel₁ ih =>
    intro fuel₂ rest n h₁ h₂
    cases fuel₂ with
    | zero => omega
    | succ fuel₂ =>
      cases rest with
      | nil => simp [ioCopy]
      | cons b rest =>
        have hlen : ∀ fuel, (b :: rest).length < fuel + 1 →
            ((b :: rest).drop (readSize n + 1)).length < fuel := by
          intro fuel h
          simp only [List.length_drop, List.length_cons] at h ⊢
          omega
        simp only [ioCopy]
        rw [ih fuel₂ _ (n + 1) (hlen _ h₁) (hlen _ h₂)]

/-- A copy stops at a write that fails: the piece read for it and whatever the body
still holds are not delivered. -/
theorem ioCopy_write_fails (w : ResponseWriter) (readSize : Nat → Nat) (bodyErr : Bool)
    (fuel : Nat) (b : UInt8) (rest : List UInt8) (n : Nat) (hfail : w.writeOk n = false) :
    ioCopy w readSize bodyErr (fuel + 1) (b :: rest) n = ([], false) := by
  simp [ioCopy, hfail]

/-- The body `aaabbb`, read in two pieces, relayed in buffered mode to a writer whose
second write fails: the caller gets `aaa` and the `DONE` line counts three bytes. -/
theorem handleProxy_copy_stops_at_failed_write :
    relayEvents (handleProxy apiKeyConfig false false (echoEnv twoPieceResponse) ⟨"", 0⟩
      brokenWriter ⟨"POST", "/v1/messages", [], some emptyObjectBody⟩).1 =
      [.copy [97, 97, 97] false] ∧
    callerBody (handleProxy apiKeyConfig false false (echoEnv twoPieceResponse) ⟨"", 0⟩
      brokenWriter ⟨"POST", "/v1/messages", [], some emptyObjectBody⟩).1 = [97, 97, 97] ∧
    doneBytes (handleProxy apiKeyConfig false false (echoEnv twoPieceResponse) ⟨"", 0⟩
      brokenWriter ⟨"POST", "/v1/messages", [], some emptyObjectBody⟩).1 = [3] := by
  refine ⟨by rfl, by decide!, by decide!⟩

/-! ## Decoding and the range of numbers -/

mutual
theorem decodeValue_isSome : ∀ (x : JSON), (decodeValue x).isSome = numbersInRange x
  | .null => by simp [decodeValue, numbersInRange]
  | .bool b => by simp [decodeValue, numbersInRange]
  | .str s => by simp [decodeValue, numbersInRange]
  | .num d => by simp [decodeValue, numbersInRange]
  | .arr xs => by
    simp only [decodeValue, numbersInRange, Option.isSome_map']
    exact decodeArray_isSome xs
  | .obj kvs => by
    simp only [decodeValue, numbersInRange, Option.isSome_map']
    exact decodeObject_isSome kvs []
theorem decodeArray_isSome : ∀ (xs : List JSON),
    (decodeArray xs).isSome = numbersInRangeArray xs
  | [] => by simp [decodeArray, numbersInRangeArray]
  | x :: xs => by
    have h1 := decodeValue_isSome x
    have h2 := decodeArray_isSome xs
    simp only [numbersInRangeArray, ← h1, ← h2]
    cases hx : decodeValue x <;> cases hxs : decodeArray xs <;> simp [decodeArray, hx, hxs]
theorem decodeObject_isSome : ∀ (kvs : List (String × JSON)) (acc : List (String × GoVal)),
    (decodeObject acc kvs).isSome = numbersInRangeObject kvs
  | [], acc => by simp [decodeObject, numbersInRangeObject]
  | (k, x) :: rest, acc => by
    have h1 := decodeValue_isSome x
    simp only [numbersInRangeObject, ← h1]
    cases hx : decodeValue x with
    | none => simp [decodeObject, hx]
    | some v =>
      simp only [decodeObject, hx, Option.isSome_some, Bool.true_and]
      exact decodeObject_isSome rest (mapSet k v acc)
end

/-- A JSON object is decoded by `json.Unmarshal` exactly when all its numbers are within
the range of `float64`. -/
theorem unmarshalMap_isSome (kvs : List (String × JSON)) :
    (unmarshalMap (.obj kvs)).isSome = numbersInRangeObject kvs := by
  simp only [unmarshalMap, Option.isSome_map']
  exact decodeObject_isSome kvs []

/-- A body that spells a JSON object which `json.Unmarshal` does not decode is passed on
as it came. -/
theorem sanitizeBody_not_decoded (body : Payload) (kvs : List (String × JSON))
    (hjson : body.json = some (.obj kvs)) (hdec : numbersInRangeObject kvs = false) :
    sanitizeBody body = ⟨.bytes body.raw, false, ""⟩ := by
  have hu : unmarshalMap (.obj kvs) = none := by
    have h := unmarshalMap_isSome kvs
    rw [hdec] at h
    cases hm : unmarshalMap (.obj kvs) with
    | none => rfl
    | some a => simp [hm] at h
  unfold sanitizeBody
  split <;> simp [hjson, hu]

/-- The token the struct decoder ends with: the last string among the `token` members,
or the value it started from. -/
theorem decodeTokenStruct_eq (fields : List (String × JSON)) :
    ∀ (tok t : String), decodeTokenStruct tok fields = some t →
      t = (lastTokenString fields).getD tok := by
  induction fields with
  | nil =>
    intro tok t h
    simp only [decodeTokenStruct, Option.some.injEq] at h
    simp [lastTokenString, h]
  | cons p rest ih =>
    intro tok t h
    obtain ⟨name, x⟩ := p
    by_cases hn : isTokenField name = true
    · cases x with
      | str s =>
        simp only [decodeTokenStruct, hn, if_true] at h
        have := ih s t h
        cases hl : lastTokenString rest with
        | none => simp [lastTokenString, hl, hn, this]
        | some s' => simp [lastTokenString, hl, this]
      | null =>
        simp only [decodeTokenStruct, hn, if_true] at h
        have := ih tok t h
        cases hl : lastTokenString rest with
        | none => simp [lastTokenString, hl, this]
        | some s' => simp [lastTokenString, hl, this]
      | bool b => simp [decodeTokenStruct, hn] at h
      | num d => simp [decodeTokenStruct, hn] at h
      | arr xs => simp [decodeTokenStruct, hn] at h
      | obj kvs => simp [decodeTokenStruct, hn] at h
    · simp only [decodeTokenStruct, hn, Bool.false_eq_true, if_false] at h
      have := ih tok t h
      cases hl : lastTokenString rest with
      | none => cases x <;> simp [lastTokenString, hl, hn, this]
      | some s' => simp [lastTokenString, hl, this]

/-- The token an entry decodes to is the token it carries. -/
theorem decodeAuthEntry_eq (x : JSON) (t : String) (h : decodeAuthEntry x = some t) :
    t = entryToken x := by
  cases x with
  | obj fields => exact decodeTokenStruct_eq fields "" t (by simpa [decodeAuthEntry] using h)
  | null => simp [decodeAuthEntry] at h; simp [entryToken, h]
  | bool b => simp [decodeAuthEntry] at h
  | num d => simp [decodeAuthEntry] at h
  | str s => simp [decodeAuthEntry] at h
  | arr xs => simp [decodeAuthEntry] at h

/-! ## The claims -/

/-- C2: the auth headers of the request `handleProxy` sends upstream follow exactly one
of three schemes. With `CfAccess` the token goes out as `cf-access-token`, with the client
id and secret if and only if both are non-empty, whatever the credential kind; otherwise
kind `apikey` gives `x-api-key`; otherwise `Authorization: Bearer`. The headers of the
other two schemes are absent in each case. -/
theorem handleProxy_auth_scheme (cfg : Config) (verbose quiet : Bool) (env : Env)
    (st : ProxyState) (w : ResponseWriter) (r : Request) (inbound : Payload)
    (token authType : String) (hbody : r.Body = some inbound)
    (htok : GetToken env.fs cfg = .ok (token, authType))
    (hreq : env.newRequestOk r.Method (cfg.Target ++ r.Path) = true) :
    ∃ req, upstreamRequests (handleProxy cfg verbose quiet env st w r).1 = [req] ∧
      (cfg.CfAccess = true →
        req.Header.Values "cf-access-token" = [token] ∧
        req.Header.Values "CF-Access-Client-Id" =
          (if cfg.CfClientID ≠ "" ∧ cfg.CfClientSecret ≠ "" then [cfg.CfClientID] else []) ∧
        req.Header.Values "CF-Access-Client-Secret" =
          (if cfg.CfClientID ≠ "" ∧ cfg.CfClientSecret ≠ "" then [cfg.CfClientSecret]
            else []) ∧
        req.Header.Values "x-api-key" = [] ∧
        req.Header.Values "Authorization" = []) ∧
      (cfg.CfAccess = false → authType = "apikey" →
        req.Header.Values "x-api-key" = [token] ∧
        req.Header.Values "cf-access-token" = [] ∧
        req.Header.Values "CF-Access-Client-Id" = [] ∧
        req.Header.Values "CF-Access-Client-Secret" = [] ∧
        req.Header.Values "Authorization" = []) ∧
      (cfg.CfAccess = false → authType ≠ "apikey" →
        req.Header.Values "Authorization" = ["Bearer " ++ token] ∧
        req.Header.Values "cf-access-token" = [] ∧
        req.Header.Values "CF-Access-Client-Id" = [] ∧
        req.Header.Values "CF-Access-Client-Secret" = [] ∧
        req.Header.Values "x-api-key" = []) :=
  ⟨_, upstreamRequests_handleProxy cfg verbose quiet env st w r inbound token authType
      hbody htok hreq, upstreamHeader_values cfg token authType⟩

/-- C2, an instance: the gateway configuration with the token `tok` from the auth file. -/
theorem handleProxy_auth_scheme_witness :
    ∃ req, upstreamRequests (handleProxy gatewayConfig false false (fileEnv okResponse)
        ⟨"", 0⟩ plainWriter ⟨"POST", "/v1/messages", [], some sampleBody⟩).1 = [req] ∧
      req.Header.Values "cf-access-token" = ["tok"] ∧
      req.Header.Values "CF-Access-Client-Id" = ["id"] ∧
      req.Header.Values "CF-Access-Client-Secret" = ["secret"] ∧
      req.Header.Values "x-api-key" = [] ∧
      req.Header.Values "Authorization" = [] :=
  have h := handleProxy_auth_scheme gatewayConfig false false (fileEnv okResponse)
    ⟨"", 0⟩ plainWriter ⟨"POST", "/v1/messages", [], some sampleBody⟩ sampleBody "tok"
    "opencode" rfl (by decide) (by decide)
  ⟨h.choose, h.choose_spec.1, (h.choose_spec.2.1 rfl).1, (h.choose_spec.2.1 rfl).2.1,
    (h.choose_spec.2.1 rfl).2.2.1, (h.choose_spec.2.1 rfl).2.2.2.1,
    (h.choose_spec.2.1 rfl).2.2.2.2⟩

/-- C3 (as amended): with auth kind `apikey`, `GetToken` never fails; it returns the
configured key, empty or not, with kind `apikey`. -/
theorem GetToken_apikey (fs : FileSystem) (cfg : Config) (hkind : cfg.AuthType = "apikey") :
    GetToken fs cfg = .ok (cfg.APIKey, "apikey") := by
  simp [GetToken, hkind]

/-- C3, an instance: the key `sk-test`. -/
theorem GetToken_apikey_witness :
    GetToken (fun _ => none) apiKeyConfig = .ok ("sk-test", "apikey") :=
  GetToken_apikey (fun _ => none) apiKeyConfig rfl

/-- C3 as stated fails: with auth kind `apikey` and an empty key, `GetToken` returns the
empty token and no error. -/
theorem GetToken_apikey_empty_key :
    emptyKeyConfig.AuthType = "apikey" ∧ emptyKeyConfig.APIKey = "" ∧
    GetToken (fun _ => none) emptyKeyConfig = .ok ("", "apikey") ∧
    ¬ ∃ e, GetToken (fun _ => none) emptyKeyConfig = .error e := by
  refine ⟨rfl, rfl, by decide, ?_⟩
  rintro ⟨e, he⟩
  have h : GetToken (fun _ => none) emptyKeyConfig = .ok ("", "apikey") := by decide
  rw [h] at he
  exact absurd he (by simp)

/-- C4 (as amended): with a token-file configuration, `GetToken` returns an error if and
only if the file cannot be read, its content is not valid JSON, the document does not
decode into a map of structs with a string `token` (it is neither `null` nor an object
whose members are each `null` or an object whose `token` members hold a string or
`null`), or the document has no entry for `cfg.LoginURL`; in every other case it returns,
with the kind `opencode` and no error, the token of the last entry for `cfg.LoginURL`:
the string of its last `token` member holding a string, the empty string when there is
none. -/
theorem GetToken_token_file (fs : FileSystem) (cfg : Config)
    (hkind : cfg.AuthType ≠ "apikey") :
    ((∃ e, GetToken fs cfg = .error e) ↔
      (fs cfg.APIKey = none ∨
        ∃ data, fs cfg.APIKey = some data ∧
          (data.json = none ∨
            ∃ doc, data.json = some doc ∧
              (authFileShape doc = false ∨
                cfg.LoginURL ∉ keysOf (authFileMembers doc))))) ∧
    (∀ tok kind, GetToken fs cfg = .ok (tok, kind) →
      kind = "opencode" ∧ kind ≠ "apikey" ∧
      ∃ data doc x, fs cfg.APIKey = some data ∧ data.json = some doc ∧
        authFileShape doc = true ∧
        memberOf cfg.LoginURL (authFileMembers doc) = some x ∧
        decodeAuthEntry x = some tok ∧ tok = entryToken x) := by
  cases hfile : fs cfg.APIKey with
  | none =>
    have hg : GetToken fs cfg = .error .readAuthFile := by
      simp [GetToken, hkind, hfile]
    exact ⟨⟨fun _ => Or.inl rfl, fun _ => ⟨_, hg⟩⟩, by intro tok kind h; simp [hg] at h⟩
  | some data =>
    cases hjson : data.json with
    | none =>
      have hg : GetToken fs cfg = .error .parseAuthFile := by
        simp [GetToken, hkind, hfile, hjson]
      exact ⟨⟨fun _ => Or.inr ⟨data, rfl, Or.inl hjson⟩, fun _ => ⟨_, hg⟩⟩,
        by intro tok kind h; simp [hg] at h⟩
    | some doc =>
      cases hshape : authFileShape doc with
      | false =>
        have hu : unmarshalAuthMap doc = none := by
          have := unmarshalAuthMap_isSome doc
          rw [hshape] at this
          cases h : unmarshalAuthMap doc with
          | none => rfl
          | some a => simp [h] at this
        have hg : GetToken fs cfg = .error .parseAuthFile := by
          simp [GetToken, hkind, hfile, hjson, hu]
        exact ⟨⟨fun _ => Or.inr ⟨data, rfl, Or.inr ⟨doc, hjson, Or.inl hshape⟩⟩,
          fun _ => ⟨_, hg⟩⟩, by intro tok kind h; simp [hg] at h⟩
      | true =>
        have hg := GetToken_of_file fs cfg hkind data doc hfile hjson hshape
        cases hm : memberOf cfg.LoginURL (authFileMembers doc) with
        | none =>
          rw [hm] at hg
          have hnot : cfg.LoginURL ∉ keysOf (authFileMembers doc) := by
            rw [mem_keysOf_memberOf, hm]; simp
          exact ⟨⟨fun _ => Or.inr ⟨data, rfl, Or.inr ⟨doc, hjson, Or.inr hnot⟩⟩,
            fun _ => ⟨_, hg⟩⟩, by intro tok kind h; simp [hg] at h⟩
        | some x =>
          rw [hm] at hg
          have hin : cfg.LoginURL ∈ keysOf (authFileMembers doc) := by
            rw [mem_keysOf_memberOf, hm]; simp
          refine ⟨⟨fun ⟨e, he⟩ => by simp [hg] at he, ?_⟩, ?_⟩
          · rintro (h | ⟨data', hd', h⟩)
            · simp at h
            · simp only [Option.some.injEq] at hd'
              subst hd'
              rcases h with h | ⟨doc', hdoc', h⟩
              · simp [hjson] at h
              · rw [hjson] at hdoc'
                simp only [Option.some.injEq] at hdoc'
                subst hdoc'
                rcases h with h | h
                · simp [hshape] at h
                · exact absurd hin h
          · intro tok kind h
            rw [hg] at h
            simp only [Except.ok.injEq, Prod.mk.injEq] at h
            obtain ⟨h1, h2⟩ := h
            subst h2
            refine ⟨rfl, by decide, data, doc, x, rfl, hjson, hshape, hm, ?_⟩
            have hx : (decodeAuthEntry x).isSome = true := by
              cases doc with
              | obj kvs =>
                have hs := decodeAuthEntries_isSome kvs []
                simp only [authFileShape] at hshape
                rw [hshape] at hs
                cases hd : decodeAuthEntries [] kvs with
                | none => simp [hd] at hs
                | some m =>
                  exact decodeAuthEntry_isSome_of_entries kvs [] m hd (cfg.LoginURL, x)
                    (memberOf_mem _ _ _ hm)
              | null => simp [authFileMembers, memberOf] at hm
              | bool b => simp [authFileMembers, memberOf] at hm
              | num d => simp [authFileMembers, memberOf] at hm
              | str s => simp [authFileMembers, memberOf] at hm
              | arr xs => simp [authFileMembers, memberOf] at hm
            cases hd : decodeAuthEntry x with
            | none => simp [hd] at hx
            | some t =>
              simp [hd] at h1
              rw [h1] at hd
              exact ⟨by rw [h1], decodeAuthEntry_eq x tok hd⟩

/-- C4, an instance: the auth file `{"https://login.example":{"token":"tok"}}` read
through the gateway configuration gives the token `tok`. -/
theorem GetToken_token_file_witness :
    (¬ ∃ e, GetToken (fileEnv okResponse).fs gatewayConfig = .error e) ∧
    GetToken (fileEnv okResponse).fs gatewayConfig = .ok ("tok", "opencode") ∧
    ∃ data doc x, (fileEnv okResponse).fs gatewayConfig.APIKey = some data ∧
      data.json = some doc ∧ authFileShape doc = true ∧
      memberOf gatewayConfig.LoginURL (authFileMembers doc) = some x ∧
      decodeAuthEntry x = some "tok" ∧ "tok" = entryToken x :=
  have h := GetToken_token_file (fileEnv okResponse).fs gatewayConfig (by decide)
  have hg : GetToken (fileEnv okResponse).fs gatewayConfig = .ok ("tok", "opencode") := by
    decide
  ⟨fun ⟨e, he⟩ => by rw [hg] at he; exact absurd he (by simp), hg,
    (h.2 "tok" "opencode" hg).2.2⟩

/-- C4 as stated fails: the auth file `{"https://login.example":{}}` maps its key to an
object without a `token` field, so it is not of the stated shape, yet `GetToken` returns
the empty token with the kind `opencode` and no error. -/
theorem GetToken_entry_without_token :
    gatewayConfig.AuthType ≠ "apikey" ∧
    emptyEntryAuthFile.json = some (.obj [("https://login.example", .obj [])]) ∧
    statedAuthFileShape (.obj [("https://login.example", .obj [])]) = false ∧
    "https://login.example" ∈ keysOf [("https://login.example", JSON.obj [])] ∧
    GetToken (fun path => if path = "/auth.json" then some emptyEntryAuthFile else none)
      gatewayConfig = .ok ("", "opencode") ∧
    ¬ ∃ e, GetToken (fun path => if path = "/auth.json" then some emptyEntryAuthFile else none)
      gatewayConfig = .error e := by
  have hg : GetToken (fun path => if path = "/auth.json" then some emptyEntryAuthFile
      else none) gatewayConfig = .ok ("", "opencode") := by decide
  refine ⟨by decide, rfl, by decide, by decide, hg, ?_⟩
  rintro ⟨e, he⟩
  rw [hg] at he
  exact absurd he (by simp)

/-- C5: for a request with `"stream": true` and an upstream answer `200` whose body is
`N` newline-terminated frames, with every write succeeding, the caller receives exactly
`N` writes, the `i`-th being the `i`-th frame with its newline, in upstream order, and
each write is followed by a flush before the next frame is read. -/
theorem handleProxy_streams_frames (cfg : Config) (verbose quiet : Bool) (env : Env)
    (st : ProxyState) (w : ResponseWriter) (r : Request) (inbound : Payload)
    (token authType : String) (resp : Response) (frames : List (List UInt8))
    (hbody : r.Body = some inbound)
    (htok : GetToken env.fs cfg = .ok (token, authType))
    (hreq : env.newRequestOk r.Method (cfg.Target ++ r.Path) = true)
    (hresp : env.roundTrip ⟨r.Method, cfg.Target ++ r.Path,
      upstreamHeader cfg token authType, (sanitizeBody inbound).body⟩ = .ok resp)
    (hstream : (sanitizeBody inbound).isStreaming = true)
    (hstatus : resp.StatusCode = 200) (hframes : ∀ f ∈ frames, IsFrame f)
    (hjoin : resp.Body = frames.flatten) (hflush : w.canFlush = true)
    (hw : ∀ n, w.writeOk n = true) :
    callerWrites (handleProxy cfg verbose quiet env st w r).1 = frames ∧
    relayEvents (handleProxy cfg verbose quiet env st w r).1 =
      frames.flatMap (fun f => [Event.readFrame f, Event.write f true, Event.flush]) ++
        [Event.readEnd resp.bodyErr] := by
  obtain ⟨pre, hpre, htrace⟩ := handleProxy_of_response cfg verbose quiet env st w r inbound
    token authType resp hbody htok hreq hresp
  rw [htrace, callerWrites_aside _ _ hpre, relayEvents_aside _ _ hpre, hstream,
    relayResponse_stream verbose quiet _ _ w resp frames hstatus hframes hjoin hflush hw]
  constructor
  · cases hb : resp.bodyErr <;>
      simp [callerWrites_append, callerWrites, callerWrites_frames, callerWrites_logInfo,
        callerWrites_logDebug]
  · cases hb : resp.bodyErr <;>
      simp [relayEvents_append, relayEvents, relayEvents_frames, relayEvents_logInfo,
        relayEvents_logDebug]

/-- C5, an instance: the two frames `a\n` and `b\n`. -/
theorem handleProxy_streams_frames_witness :
    callerWrites (handleProxy apiKeyConfig false false (echoEnv streamResponse) ⟨"", 0⟩
      plainWriter sampleRequest).1 = [[97, 10], [98, 10]] ∧
    relayEvents (handleProxy apiKeyConfig false false (echoEnv streamResponse) ⟨"", 0⟩
      plainWriter sampleRequest).1 =
      [.readFrame [97, 10], .write [97, 10] true, .flush,
       .readFrame [98, 10], .write [98, 10] true, .flush, .readEnd false] :=
  handleProxy_streams_frames apiKeyConfig false false (echoEnv streamResponse) ⟨"", 0⟩
    plainWriter sampleRequest sampleBody "sk-test" "apikey" streamResponse
    [[97, 10], [98, 10]] rfl (by decide) (by decide) rfl (by decide!) rfl
    (by
      intro f hf
      simp only [List.mem_cons, List.mem_singleton, List.not_mem_nil, or_false] at hf
      rcases hf with rfl | rfl
      · exact ⟨[97], rfl, by decide⟩
      · exact ⟨[98], rfl, by decide⟩)
    rfl rfl (fun _ => rfl)

/-- C8: an empty body, or one that is not valid JSON, is forwarded byte for byte with
`isStreaming = false` and no model, and the request still goes upstream once the
credential resolves and the upstream request is built. -/
theorem sanitizeBody_passthrough (cfg : Config) (verbose quiet : Bool) (env : Env)
    (st : ProxyState) (w : ResponseWriter) (r : Request) (inbound : Payload)
    (hbody : r.Body = some inbound) (hbad : inbound.raw = [] ∨ inbound.json = none) :
    (sanitizeBody inbound).body = .bytes inbound.raw ∧
    (sanitizeBody inbound).isStreaming = false ∧
    (sanitizeBody inbound).model = "" ∧
    ∀ token authType, GetToken env.fs cfg = .ok (token, authType) →
      env.newRequestOk r.Method (cfg.Target ++ r.Path) = true →
      upstreamRequests (handleProxy cfg verbose quiet env st w r).1 =
        [⟨r.Method, cfg.Target ++ r.Path, upstreamHeader cfg token authType,
          .bytes inbound.raw⟩] := by
  have hs : sanitizeBody inbound = ⟨.bytes inbound.raw, false, ""⟩ := by
    rcases hbad with h | h
    · simp [sanitizeBody, h]
    · unfold sanitizeBody
      split <;> simp [h]
  refine ⟨by rw [hs], by rw [hs], by rw [hs], ?_⟩
  intro token authType htok hreq
  rw [upstreamRequests_handleProxy cfg verbose quiet env st w r inbound token authType
    hbody htok hreq, hs]

/-- C8, an instance: the twelve bytes `not json ...` sent with an API-key configuration. -/
theorem sanitizeBody_passthrough_witness :
    (sanitizeBody garbageBody).body = .bytes garbageBody.raw ∧
    (sanitizeBody garbageBody).isStreaming = false ∧
    (sanitizeBody garbageBody).model = "" ∧
    upstreamRequests (handleProxy apiKeyConfig false false (echoEnv okResponse) ⟨"", 0⟩
        plainWriter ⟨"POST", "/v1/messages", [], some garbageBody⟩).1 =
      [⟨"POST", "https://api.example/v1/messages", upstreamHeader apiKeyConfig "sk-test" "apikey",
        .bytes garbageBody.raw⟩] :=
  have h := sanitizeBody_passthrough apiKeyConfig false false (echoEnv okResponse) ⟨"", 0⟩
    plainWriter ⟨"POST", "/v1/messages", [], some garbageBody⟩ garbageBody rfl (Or.inr rfl)
  ⟨h.1, h.2.1, h.2.2.1, h.2.2.2 "sk-test" "apikey" (by decide) (by decide)⟩

/-- C9 (as amended): for a body that spells a JSON object all of whose numbers are
within the range of `float64`, `isStreaming` is the value of `stream` when that is a JSON
boolean and `false` otherwise, `model` is the value of `model` when that is a JSON string
and empty otherwise, and both keys stay in the forwarded object; for a JSON object with
a number out of that range `json.Unmarshal` fails, so `isStreaming` is `false` and
`model` is empty whatever the two keys hold, and the body is forwarded as it came. -/
theorem sanitizeBody_reads_stream_model (body : Payload) (kvs : List (String × JSON))
    (hraw : body.raw ≠ []) (hjson : body.json = some (.obj kvs)) :
    (numbersInRangeObject kvs = true →
      (sanitizeBody body).isStreaming =
        (match memberOf "stream" kvs with
          | some (.bool b) => b
          | _ => false) ∧
      (sanitizeBody body).model =
        (match memberOf "model" kvs with
          | some (.str s) => s
          | _ => "") ∧
      ∃ out, (sanitizeBody body).body = .marshalled (.obj out) ∧
        ("stream" ∈ keysOf kvs → "stream" ∈ keysOf out) ∧
        ("model" ∈ keysOf kvs → "model" ∈ keysOf out)) ∧
    (numbersInRangeObject kvs = false →
      (sanitizeBody body).isStreaming = false ∧ (sanitizeBody body).model = "" ∧
      (sanitizeBody body).body = .bytes body.raw) := by
  constructor
  · intro hdec
    rw [← decodeObject_isSome kvs []] at hdec
    cases hm : decodeObject [] kvs with
    | none => simp [hm] at hdec
    | some m =>
      have hs := mapGet_strippedMap kvs m hm "stream" (by decide) (by decide)
      have hmod := mapGet_strippedMap kvs m hm "model" (by decide) (by decide)
      have hkeys := mem_keysOf_forwarded kvs m hm
      rw [sanitizeBody_of_object body kvs m hraw hjson hm]
      refine ⟨?_, ?_, encodeObject (strippedMap m), rfl, ?_, ?_⟩
      · show (match mapGet "stream" (strippedMap m) with
            | some (.bool stream) => stream
            | _ => false) = _
        rw [hs]
        cases hk : memberOf "stream" kvs with
        | none => simp
        | some x => cases x <;> simp [decodeValue]
      · show (match mapGet "model" (strippedMap m) with
            | some (.string s) => s
            | _ => "") = _
        rw [hmod]
        cases hk : memberOf "model" kvs with
        | none => simp
        | some x => cases x <;> simp [decodeValue]
      · intro h
        exact (hkeys "stream").mpr ⟨h, by decide, by decide⟩
      · intro h
        exact (hkeys "model").mpr ⟨h, by decide, by decide⟩
  · intro hdec
    rw [sanitizeBody_not_decoded body kvs hjson hdec]
    exact ⟨rfl, rfl, rfl⟩

/-- C9, an instance: the body `{"model":"m","stream":true,"mcp_servers":["x"],"t":0.7}`
gives `isStreaming = true` and `model = "m"`. -/
theorem sanitizeBody_reads_stream_model_witness :
    (sanitizeBody sampleBody).isStreaming = true ∧
    (sanitizeBody sampleBody).model = "m" ∧
    ∃ out, (sanitizeBody sampleBody).body = .marshalled (.obj out) ∧
      ("stream" ∈ keysOf out) ∧ ("model" ∈ keysOf out) :=
  have h := (sanitizeBody_reads_stream_model sampleBody _ (by decide) rfl).1 (by decide!)
  ⟨h.1, h.2.1, h.2.2.choose, h.2.2.choose_spec.1,
    h.2.2.choose_spec.2.1 (by decide), h.2.2.choose_spec.2.2 (by decide)⟩

/-- C9 as stated fails: the body `{"stream":true,"mcp_servers":["x"],"n":1e400}` is a
JSON object whose `stream` is the boolean `true`, yet `isStreaming` is `false`, and the
body goes out as it came. -/
theorem sanitizeBody_stream_flag_lost :
    hugeNumberBody.raw ≠ [] ∧
    hugeNumberBody.json = some (.obj [("stream", .bool true),
      ("mcp_servers", .arr [.str "x"]), ("n", .num ⟨1, 400⟩)]) ∧
    memberOf "stream" [("stream", JSON.bool true), ("mcp_servers", .arr [.str "x"]),
      ("n", .num ⟨1, 400⟩)] = some (.bool true) ∧
    (sanitizeBody hugeNumberBody).isStreaming = false ∧
    (sanitizeBody hugeNumberBody).body = .bytes hugeNumberBody.raw := by
  refine ⟨by decide, rfl, by rfl, ?_, ?_⟩
  · rw [sanitizeBody_number_out_of_range]
  · rw [sanitizeBody_number_out_of_range]

/-- C11: `handleHealth` answers `200` with a JSON object of the five fields `status`,
`target`, `auth_type`, `cf_access` and `has_token`; the middle three are the
configuration's values, `has_token` is false exactly when `GetToken` fails or returns an
empty token, and no upstream call is made. -/
theorem handleHealth_reply (cfg : Config) (env : Env) :
    responseStatus (handleHealth cfg env).trace = 200 ∧
    upstreamRequests (handleHealth cfg env).trace = [] ∧
    ∃ fields hasToken, (handleHealth cfg env).body = .obj fields ∧
      keysOf fields = ["auth_type", "cf_access", "has_token", "status", "target"] ∧
      mapGet "status" fields = some (.str "ok") ∧
      mapGet "target" fields = some (.str cfg.Target) ∧
      mapGet "auth_type" fields = some (.str cfg.AuthType) ∧
      mapGet "cf_access" fields = some (.bool cfg.CfAccess) ∧
      mapGet "has_token" fields = some (.bool hasToken) ∧
      (hasToken = false ↔
        ((∃ err, GetToken env.fs cfg = .error err) ∨
          ∃ kind, GetToken env.fs cfg = .ok ("", kind))) := by
  refine ⟨rfl, rfl, _, _, handleHealth_body cfg env, rfl, rfl, rfl, rfl, rfl, rfl, ?_⟩
  cases h : GetToken env.fs cfg with
  | error err => simp
  | ok p =>
    obtain ⟨token, kind⟩ := p
    simp

/-- C12: the request `handleProxy` hands to the upstream has the inbound method, the
configured target followed by the inbound path as URL, the sanitized body, and a header
map made of exactly `Content-Type: application/json`, `anthropic-version: 2023-06-01`
and the auth headers of the scheme in force; it is the same whatever headers the
inbound request carries. -/
theorem handleProxy_upstream_request (cfg : Config) (verbose quiet : Bool) (env : Env)
    (st : ProxyState) (w : ResponseWriter) (r : Request) (inbound : Payload)
    (token authType : String) (hbody : r.Body = some inbound)
    (htok : GetToken env.fs cfg = .ok (token, authType))
    (hreq : env.newRequestOk r.Method (cfg.Target ++ r.Path) = true) :
    ∃ req, upstreamRequests (handleProxy cfg verbose quiet env st w r).1 = [req] ∧
      req.Method = r.Method ∧ req.URL = cfg.Target ++ r.Path ∧
      req.Body = (sanitizeBody inbound).body ∧
      req.Header = expectedUpstreamHeader cfg token authType ∧
      ∀ hdr : Header,
        upstreamRequests (handleProxy cfg verbose quiet env st w
          { r with Header := hdr }).1 = [req] :=
  ⟨_, upstreamRequests_handleProxy cfg verbose quiet env st w r inbound token authType
      hbody htok hreq, rfl, rfl, rfl, upstreamHeader_eq_expected cfg token authType,
    fun hdr => upstreamRequests_handleProxy cfg verbose quiet env st w
      { r with Header := hdr } inbound token authType hbody htok hreq⟩

set_option maxRecDepth 100000 in
/-- C12, an instance: `POST /v1/messages` through the gateway configuration, with an
inbound `Authorization` header that is not passed on. -/
theorem handleProxy_upstream_request_witness :
    upstreamRequests (handleProxy gatewayConfig false false (fileEnv okResponse) ⟨"", 0⟩
      plainWriter { sampleRequest with Header := [("Authorization", ["Bearer inbound"])] }).1 =
      [⟨"POST", "https://api.example/v1/messages",
        [("Anthropic-Version", ["2023-06-01"]), ("Cf-Access-Client-Id", ["id"]),
         ("Cf-Access-Client-Secret", ["secret"]), ("Cf-Access-Token", ["tok"]),
         ("Content-Type", ["application/json"])],
        (sanitizeBody sampleBody).body⟩] :=
  have h := handleProxy_upstream_request gatewayConfig false false (fileEnv okResponse)
    ⟨"", 0⟩ plainWriter sampleRequest sampleBody "tok" "opencode" rfl (by decide) (by decide)
  (h.choose_spec.2.2.2.2.2 [("Authorization", ["Bearer inbound"])]).trans (by
    have e1 := h.choose_spec.2.1
    have e2 := h.choose_spec.2.2.1
    have e3 := h.choose_spec.2.2.2.1
    have e4 := h.choose_spec.2.2.2.2.1
    have : h.choose = ⟨h.choose.Method, h.choose.URL, h.choose.Header, h.choose.Body⟩ := rfl
    rw [this, e1, e2, e3, e4]
    rfl)

/-- C15: with `quiet` set, `handleProxy` emits no log line, whatever the request, the
outcome and the value of `verbose`. -/
theorem handleProxy_quiet_silent (cfg : Config) (verbose : Bool) (env : Env)
    (st : ProxyState) (w : ResponseWriter) (r : Request) :
    logRecords (handleProxy cfg verbose true env st w r).1 = [] := by
  unfold handleProxy
  simp only [logInfo_quiet, logDebug_quiet, List.nil_append, ite_self]
  cases r.Body with
  | none => simp [logRecords]
  | some inbound =>
    cases GetToken env.fs cfg with
    | error err => simp [logRecords]
    | ok p =>
      obtain ⟨token, authType⟩ := p
      simp only
      split
      · simp [logRecords]
      · split
        · simp [logRecords]
        · simp [logRecords, logRecords_append, logRecords_relayResponse_quiet]

/-- C13: in streaming mode, when the write of a frame fails after the writes of the
frames before it succeeded, the relay stops at once: whatever follows that frame in the
upstream body is never read, no further write or flush reaches the caller, and the
upstream body is closed as the handler returns. -/
theorem handleProxy_stops_on_write_error (cfg : Config) (verbose quiet : Bool) (env : Env)
    (st : ProxyState) (w : ResponseWriter) (r : Request) (inbound : Payload)
    (token authType : String) (resp : Response) (frames : List (List UInt8))
    (f rest : List UInt8)
    (hbody : r.Body = some inbound)
    (htok : GetToken env.fs cfg = .ok (token, authType))
    (hreq : env.newRequestOk r.Method (cfg.Target ++ r.Path) = true)
    (hresp : env.roundTrip ⟨r.Method, cfg.Target ++ r.Path,
      upstreamHeader cfg token authType, (sanitizeBody inbound).body⟩ = .ok resp)
    (hstream : (sanitizeBody inbound).isStreaming = true)
    (hstatus : resp.StatusCode = 200) (hflush : w.canFlush = true)
    (hframes : ∀ g ∈ frames, IsFrame g) (hf : IsFrame f)
    (hsplit : resp.Body = frames.flatten ++ (f ++ rest))
    (hok : ∀ i, i < frames.length → w.writeOk i = true)
    (hfail : w.writeOk frames.length = false) :
    relayEvents (handleProxy cfg verbose quiet env st w r).1 =
      frames.flatMap (fun g => [Event.readFrame g, Event.write g true, Event.flush]) ++
        [Event.readFrame f, Event.write f false] ∧
    ∃ before, (handleProxy cfg verbose quiet env st w r).1 =
      before ++ [Event.closeUpstreamBody, Event.closeRequestBody] := by
  obtain ⟨pre, hpre, htrace⟩ := handleProxy_of_response cfg verbose quiet env st w r inbound
    token authType resp hbody htok hreq hresp
  refine ⟨?_, ⟨pre ++ relayResponse verbose quiet (st.requestCount + 1)
    (if (sanitizeBody inbound).isStreaming then "stream" else "sync")
    (sanitizeBody inbound).isStreaming w resp, by rw [htrace, List.append_assoc]⟩⟩
  rw [htrace, relayEvents_aside _ _ hpre, hstream]
  unfold relayResponse
  simp only [hstatus, decide_True, Bool.and_self, if_true, hflush, Bool.not_true,
    Bool.false_eq_true, if_false]
  rw [hsplit, relayLoop_write_fails verbose quiet _ w resp.bodyErr f rest hf frames hframes
    _ 0 0 (by simpa using hok) (by simpa using hfail) (Nat.lt_succ_self _)]
  simp [relayEvents_append, relayEvents, relayEvents_frames, relayEvents_logInfo,
    relayEvents_logDebug]

/-- C13, an instance: of the three frames `a\n`, `b\n`, `c\n` the second write fails,
and `c\n` is never read. -/
theorem handleProxy_stops_on_write_error_witness :
    relayEvents (handleProxy apiKeyConfig false false (echoEnv threeFrameResponse) ⟨"", 0⟩
      brokenWriter sampleRequest).1 =
      [.readFrame [97, 10], .write [97, 10] true, .flush,
       .readFrame [98, 10], .write [98, 10] false] ∧
    ∃ before, (handleProxy apiKeyConfig false false (echoEnv threeFrameResponse) ⟨"", 0⟩
      brokenWriter sampleRequest).1 =
      before ++ [Event.closeUpstreamBody, Event.closeRequestBody] :=
  handleProxy_stops_on_write_error apiKeyConfig false false (echoEnv threeFrameResponse)
    ⟨"", 0⟩ brokenWriter sampleRequest sampleBody "sk-test" "apikey" threeFrameResponse
    [[97, 10]] [98, 10] [99, 10] rfl (by decide) (by decide) rfl (by decide!) rfl rfl
    (by
      intro g hg
      simp only [List.mem_singleton] at hg
      subst hg
      exact ⟨[97], rfl, by decide⟩)
    ⟨[98], rfl, by decide⟩ rfl
    (by
      intro i hi
      have : i = 0 := by simpa using hi
      subst this
      rfl)
    rfl

/-- C18: in streaming mode with every write succeeding, the bytes written to the caller
are the upstream body cut just after its last newline: what follows the last newline
(a last frame without newline, or a whole body without one) is never written, and the
byte count of the `DONE` line is the number of bytes written. -/
theorem handleProxy_stream_truncates (cfg : Config) (verbose quiet : Bool) (env : Env)
    (st : ProxyState) (w : ResponseWriter) (r : Request) (inbound : Payload)
    (token authType : String) (resp : Response)
    (hbody : r.Body = some inbound)
    (htok : GetToken env.fs cfg = .ok (token, authType))
    (hreq : env.newRequestOk r.Method (cfg.Target ++ r.Path) = true)
    (hresp : env.roundTrip ⟨r.Method, cfg.Target ++ r.Path,
      upstreamHeader cfg token authType, (sanitizeBody inbound).body⟩ = .ok resp)
    (hstream : (sanitizeBody inbound).isStreaming = true)
    (hstatus : resp.StatusCode = 200) (hflush : w.canFlush = true)
    (hw : ∀ n, w.writeOk n = true) :
    callerBody (handleProxy cfg verbose quiet env st w r).1 = uptoLastNewline resp.Body ∧
    (∃ tail, resp.Body = callerBody (handleProxy cfg verbose quiet env st w r).1 ++ tail ∧
      (10 : UInt8) ∉ tail) ∧
    (callerBody (handleProxy cfg verbose quiet env st w r).1 = [] ∨
      (callerBody (handleProxy cfg verbose quiet env st w r).1).getLast? = some 10) ∧
    doneBytes (handleProxy cfg verbose quiet env st w r).1 =
      (if quiet then []
        else [(callerBody (handleProxy cfg verbose quiet env st w r).1).length]) := by
  obtain ⟨pre, hpre, htrace⟩ := handleProxy_of_response cfg verbose quiet env st w r inbound
    token authType resp hbody htok hreq hresp
  obtain ⟨hdel, hcount⟩ := relayLoop_delivers verbose quiet (st.requestCount + 1) w
    resp.bodyErr hw (resp.Body.length + 1) resp.Body 0 0 (Nat.lt_succ_self _)
  have hrelay : ∀ streamType : String,
      relayResponse verbose quiet (st.requestCount + 1) streamType true w resp =
      [.setHeader "Content-Type" "text/event-stream", .setHeader "Cache-Control" "no-cache",
        .setHeader "Connection" "keep-alive", .writeHeader 200] ++
      (relayLoop verbose quiet (st.requestCount + 1) w resp.bodyErr (resp.Body.length + 1)
        resp.Body 0 0).1 ++
      logInfo quiet (.done (st.requestCount + 1) streamType
        (relayLoop verbose quiet (st.requestCount + 1) w resp.bodyErr (resp.Body.length + 1)
          resp.Body 0 0).2) := by
    intro streamType
    unfold relayResponse
    simp only [hstatus, decide_True, Bool.and_self, if_true, hflush, Bool.not_true,
      Bool.false_eq_true, if_false]
  have hcb : callerBody (handleProxy cfg verbose quiet env st w r).1 =
      uptoLastNewline resp.Body := by
    rw [htrace, callerBody_aside _ _ hpre, hstream, hrelay]
    simp [callerBody_append, callerBody, callerBody_logInfo, hdel]
  obtain ⟨tail, ht1, ht2, ht3⟩ := uptoLastNewline_spec resp.Body
  refine ⟨hcb, ⟨tail, by rw [hcb]; exact ht1, ht2⟩, by rw [hcb]; exact ht3, ?_⟩
  rw [hcb, doneBytes_handleProxy cfg verbose quiet env st w r inbound token authType resp
    hbody htok hreq hresp, hstream, hrelay, hcount]
  cases quiet <;>
    simp [doneBytes_append, doneBytes, doneBytes_relayLoop, logInfo]

/-- C18, an instance: of the body `a\nbc` only `a\n` is written, and the `DONE` line
counts two bytes. -/
theorem handleProxy_stream_truncates_witness :
    callerBody (handleProxy apiKeyConfig false false (echoEnv raggedResponse) ⟨"", 0⟩
      plainWriter sampleRequest).1 = [97, 10] ∧
    raggedResponse.Body = [97, 10] ++ [98, 99] ∧
    doneBytes (handleProxy apiKeyConfig false false (echoEnv raggedResponse) ⟨"", 0⟩
      plainWriter sampleRequest).1 = [2] :=
  have h := handleProxy_stream_truncates apiKeyConfig false false (echoEnv raggedResponse)
    ⟨"", 0⟩ plainWriter sampleRequest sampleBody "sk-test" "apikey" raggedResponse rfl
    (by decide) (by decide) rfl (by decide!) rfl rfl (fun _ => rfl)
  have hb : callerBody (handleProxy apiKeyConfig false false (echoEnv raggedResponse) ⟨"", 0⟩
      plainWriter sampleRequest).1 = [97, 10] := h.1.trans (by decide)
  ⟨hb, rfl, by rw [h.2.2.2, hb]; rfl⟩

/-- C16 (as amended): for requests served one after another with `quiet` off, whatever
`verbose` is, a request emits exactly one `MODEL` line when it names a model and that
model differs from the active model left by the requests before it, and no `MODEL` line
otherwise; a request that names no model emits none and leaves the active model as it
is, so a model that stays the same is logged once. -/
theorem serveAll_model_lines (cfg : Config) (verbose : Bool) (env : Env)
    (reqs : List (ResponseWriter × Request)) :
    ∀ st : ProxyState,
      (serveAll cfg verbose false env st reqs).map modelLines =
        expectedModelLines st.lastModel (reqs.map fun p => requestModel p.2) := by
  induction reqs with
  | nil => intro st; rfl
  | cons p rest ih =>
    intro st
    obtain ⟨w, r⟩ := p
    simp only [serveAll, List.map_cons, expectedModelLines]
    rw [ih, modelLines_handleProxy, lastModel_handleProxy]

/-- C16 as stated fails: after a request naming the model `m`, a request with the body
`{}` names no model, which differs from the active model `m`, yet it emits no `MODEL`
line. -/
theorem serveAll_model_line_missing :
    (serveAll apiKeyConfig false false (echoEnv okResponse) ⟨"", 0⟩
      [(plainWriter, sampleRequest),
       (plainWriter, ⟨"POST", "/v1/messages", [], some emptyObjectBody⟩)]).map modelLines =
      [["m"], []] ∧
    (handleProxy apiKeyConfig false false (echoEnv okResponse) ⟨"", 0⟩ plainWriter
      sampleRequest).2.lastModel = "m" ∧
    requestModel ⟨"POST", "/v1/messages", [], some emptyObjectBody⟩ = "" ∧
    requestModel ⟨"POST", "/v1/messages", [], some emptyObjectBody⟩ ≠ "m" := by
  refine ⟨by decide!, by decide!, by decide, by decide⟩

/-- C14 (as amended): building the outbound client and starting the server write the
same log and console output whether the skip-verification flag is set or not, so no
record of that choice is emitted; the flag only sets `InsecureSkipVerify` in the TLS
configuration of the client. -/
theorem Run_output_ignores_InsecureSkip (host : Host) (cfg : Config) (port : Int)
    (bindAddr : String) (verbose : Bool) :
    Run host { cfg with InsecureSkip := true } port bindAddr verbose =
      Run host { cfg with InsecureSkip := false } port bindAddr verbose ∧
    ∀ client, CreateHTTPClient host { cfg with InsecureSkip := true } = .ok client →
      ∃ tlsConfig, client.TLSClientConfig = some tlsConfig ∧
        tlsConfig.InsecureSkipVerify = true := by
  constructor
  · unfold Run
    cases ht : CreateHTTPClient host { cfg with InsecureSkip := true } with
    | error err =>
      rw [(CreateHTTPClient_error_iff host cfg err).mp ht]
    | ok client =>
      cases hf : CreateHTTPClient host { cfg with InsecureSkip := false } with
      | error err =>
        rw [(CreateHTTPClient_error_iff host cfg err).mpr hf] at ht
        exact absurd ht (by simp)
      | ok client' => rfl
  · intro client h
    unfold CreateHTTPClient at h
    by_cases hp : cfg.Proxy ≠ "" ∧ host.urlOk cfg.Proxy = false
    · rw [if_pos hp] at h
      exact absurd h (by simp)
    · rw [if_neg hp] at h
      by_cases hc : cfg.CACert = ""
      · simp only [hc, ne_eq, not_true_eq_false, false_or, if_true, if_false,
          Except.ok.injEq] at h
        rw [← h]
        exact ⟨_, rfl, rfl⟩
      · cases hfs : host.fs cfg.CACert with
        | none => simp [hc, hfs] at h
        | some caCert =>
          by_cases hpem : host.pemOk caCert.raw = false
          · simp [hc, hfs, hpem] at h
          · simp only [hc, hfs, hpem, ne_eq, not_false_eq_true, true_or, if_true, if_false,
              Except.ok.injEq] at h
            have h' : (⟨if ¬cfg.Proxy = "" then some cfg.Proxy else none,
                some ⟨true, some caCert.raw⟩, 5⟩ : HTTPClient) = client := by
              simpa using h
            rw [← h']
            exact ⟨_, rfl, rfl⟩

/-- C14, an instance: the API-key configuration with the flag set starts with the same
output as without it, and its client skips verification. -/
theorem Run_output_ignores_InsecureSkip_witness :
    Run bareHost insecureConfig 8787 "127.0.0.1" true =
      Run bareHost { insecureConfig with InsecureSkip := false } 8787 "127.0.0.1" true ∧
    ∃ tlsConfig, (⟨none, some ⟨true, none⟩, 5⟩ : HTTPClient).TLSClientConfig = some tlsConfig ∧
      tlsConfig.InsecureSkipVerify = true :=
  ⟨(Run_output_ignores_InsecureSkip bareHost insecureConfig 8787 "127.0.0.1" true).1,
   (Run_output_ignores_InsecureSkip bareHost insecureConfig 8787 "127.0.0.1" true).2
     ⟨none, some ⟨true, none⟩, 5⟩ (by decide)⟩

/-- C14 as stated fails: with the flag set the server starts with exactly the two
banner lines and the blank line it prints with the flag unset. -/
theorem Run_silent_about_InsecureSkip :
    insecureConfig.InsecureSkip = true ∧ apiKeyConfig.InsecureSkip = false ∧
    { insecureConfig with InsecureSkip := false } = apiKeyConfig ∧
    Run bareHost insecureConfig 8787 "127.0.0.1" false =
      [.proxyBanner "127.0.0.1" 8787 "https://api.example", .authBanner "apikey" false,
       .blank] ∧
    Run bareHost apiKeyConfig 8787 "127.0.0.1" false =
      Run bareHost insecureConfig 8787 "127.0.0.1" false := by
  decide

/-- C17, the code at the failing input: `config --auth-file <path>` and
`config --auth-key <key>` save the configuration unchanged, while the undocumented
`--api-key` and `--login-url` set the two fields. -/
theorem Config_ignores_documented_auth_options :
    Cmd.Config gatewayConfig (DefaultConfig "/root/.local/share/opencode/auth.json")
      ["--auth-file", "/tmp/other.json"] = some gatewayConfig ∧
    Cmd.Config gatewayConfig (DefaultConfig "/root/.local/share/opencode/auth.json")
      ["--auth-key", "https://other.example"] = some gatewayConfig ∧
    Cmd.Config gatewayConfig (DefaultConfig "/root/.local/share/opencode/auth.json")
      ["--api-key", "/tmp/other.json"] =
      some { gatewayConfig with APIKey := "/tmp/other.json" } ∧
    Cmd.Config gatewayConfig (DefaultConfig "/root/.local/share/opencode/auth.json")
      ["--login-url", "https://other.example"] =
      some { gatewayConfig with LoginURL := "https://other.example" } ∧
    gatewayConfig.APIKey ≠ "/tmp/other.json" ∧
    gatewayConfig.LoginURL ≠ "https://other.example" := by
  decide

end Proxy
